import Mathlib

/-!
Verification of the clinical trials prospector core
(clinical_trials_prospector.py of the Prospection repository).

The development shallowly embeds the Python code:

* Strings are Lean strings; the Python name.lower() call is modelled by
  mapping Char.toLower over the characters (an ASCII lowercasing, which is
  faithful for the taxonomy keywords and for all names considered here, and
  the taxonomy keywords are proved to be lowercase-fixed).
* Python substring containment (kw in name) is modelled by strContains.
* JSON documents handed to the extraction pipeline are modelled by the
  JValue inductive; Python dict .get calls that raise AttributeError on
  non-dict receivers are modelled in an Except monad, as are TypeError on
  joining non-strings or iterating non-lists, and the NameError raised by
  the warning handler of extract_data when nct_id is still unbound.
* The paginated fetch loop is modelled over an abstract paginated source;
  the transport error branch of the loop (requests.RequestException) is the
  None response of the source.  time.sleep is a no-op and is not modelled.
* The csv module is modelled at the level of rows of string cells: the
  DictWriter writes, for each record, the row of cell strings in fieldnames
  order (missing keys and None become the empty string), and DictReader
  zips the header row with each data row.
-/

/-- ASCII lowercasing of a string, modelling name.lower() in the source. -/
def lowerStr (s : String) : String := String.mk (s.data.map Char.toLower)

/-- Substring containment on character lists (Python needle in hay). -/
def charsContain (needle : List Char) : List Char → Bool
  | [] => needle.isEmpty
  | c :: rest => List.isPrefixOf needle (c :: rest) || charsContain needle rest

/-- Python substring test: needle in hay. -/
def strContains (hay needle : String) : Bool := charsContain needle.data hay.data

/-- One entry of the ORGANIZATION_TYPES taxonomy of the source. -/
structure OrgEntry where
  key : String
  keywords : List String
  label : String

/-- The ORGANIZATION_TYPES dict of the source, as an ordered list (Python
dicts iterate in insertion order).  Keyword strings are verbatim from the
source, including its two mojibake keywords. -/
def ORGANIZATION_TYPES : List OrgEntry :=
  [ { key := "university"
    , keywords := ["university", "universite", "universit√§t", "universidad",
                   "universiti", "college", "√©cole"]
    , label := "Universities & Colleges" }
  , { key := "institute"
    , keywords := ["institute", "institut", "instituto", "research center", "research centre"]
    , label := "Research Institutes" }
  , { key := "hospital"
    , keywords := ["hospital", "medical center", "medical centre", "health system",
                   "health center", "clinic", "clinique", "klinik"]
    , label := "Hospitals & Medical Centers" }
  , { key := "government"
    , keywords := ["national institutes", "nih", "ministry of health", "department of health",
                   "veterans affairs", "va medical", "public health", "government"]
    , label := "Government Agencies" }
  , { key := "foundation"
    , keywords := ["foundation", "fondation", "fundacion", "stichting", "trust fund"]
    , label := "Foundations & Trusts" }
  , { key := "academic"
    , keywords := ["school of medicine", "school of pharmacy", "faculty of",
                   "academy", "academie", "academic"]
    , label := "Academic Medical Centers" }
  , { key := "nonprofit"
    , keywords := ["nonprofit", "non-profit", "charity", "charitable", "society",
                   "association", "organization"]
    , label := "Non-Profit Organizations" }
  , { key := "company"
    , keywords := []
    , label := "Commercial Companies" } ]

/-- The taxonomy scan of get_organization_type: iterate entries in order,
skip the company entry, return the first key whose keyword list has a
substring hit on the lowercased name. -/
def findOrgType (nameLower : String) : List OrgEntry → Option String
  | [] => none
  | e :: rest =>
    if e.key == "company" then findOrgType nameLower rest
    else if e.keywords.any (fun kw => strContains nameLower kw) then some e.key
    else findOrgType nameLower rest

/-- get_organization_type of the source: empty name gives unknown, a first
keyword hit gives that category key, no hit gives company. -/
def get_organization_type (name : String) : String :=
  if name = "" then "unknown"
  else
    match findOrgType (lowerStr name) ORGANIZATION_TYPES with
    | some t => t
    | none => "company"

/-- The filtering state of a ClinicalTrialsProspector instance. -/
structure Prospector where
  include_types : Option (List String)
  exclude_types : List String
  extraction_options : List String

/-- The constructor of ClinicalTrialsProspector: include_types is stored as
given (None stays None, an empty list stays an empty list), while the
falsy-coalescing Python or replaces a missing or empty exclude_types with
the empty list and a missing or empty extraction_options with [sponsors]. -/
def mkProspector (include_types exclude_types extraction_options : Option (List String)) :
    Prospector :=
  { include_types := include_types
    exclude_types :=
      match exclude_types with
      | some l => if l.isEmpty then [] else l
      | none => []
    extraction_options :=
      match extraction_options with
      | some l => if l.isEmpty then ["sponsors"] else l
      | none => ["sponsors"] }

/-- should_include_organization of the source: empty name is excluded; with
an include list configured (not None) the category must be a member of it;
otherwise the category must not be a member of the exclude list. -/
def should_include_organization (p : Prospector) (name : String) : Bool :=
  if name = "" then false
  else
    let org_type := get_organization_type name
    match p.include_types with
    | some incl => incl.contains org_type
    | none => !(p.exclude_types.contains org_type)

/-- JSON documents as handed to the extraction pipeline (null doubles as
Python None, numbers are integers, objects are ordered key-value lists as
Python dicts are). -/
inductive JValue where
  | null : JValue
  | str : String → JValue
  | num : Int → JValue
  | arr : List JValue → JValue
  | obj : List (String × JValue) → JValue

/-- The Python exceptions the embedded pipeline can raise. -/
inductive PyErr where
  | attributeError : PyErr
  | typeError : PyErr
  | nameError : PyErr
deriving DecidableEq

/-- A flat extracted record: an ordered mapping from field names to values,
as the Python dicts built by extract_data. -/
abbrev Record := List (String × JValue)

/-- The key list of a record (row.keys() in the source). -/
def recordKeys (r : Record) : List String := r.map (fun kv => kv.1)

/-- The all_keys set of export_to_csv and export_to_xlsx: the union of the
keys of all records (set contents modelled as a deduplicated list). -/
def all_keys (records : List Record) : List String :=
  ((records.map recordKeys).flatten).dedup

/-- Boolean lexicographic strict comparison on character lists, by code
point, as Python string comparison. -/
def strLtB : List Char → List Char → Bool
  | [], [] => false
  | [], _ :: _ => true
  | _ :: _, [] => false
  | a :: as1, b :: bs1 =>
    if a.toNat < b.toNat then true
    else if b.toNat < a.toNat then false
    else strLtB as1 bs1

/-- Lexicographic at-most comparison on strings. -/
def strLeB (a b : String) : Bool := !(strLtB b.data a.data)

/-- Insertion into a sorted list of strings. -/
def insertSorted (x : String) : List String → List String
  | [] => [x]
  | y :: ys => if strLeB x y then x :: y :: ys else y :: insertSorted x ys

/-- Insertion sort on strings, modelling sorted() on a set of distinct
strings (distinct elements make the sorted arrangement unique, so any
correct sort agrees with the Python one). -/
def sortStrings : List String → List String
  | [] => []
  | x :: xs => insertSorted x (sortStrings xs)

/-- The sorted union of all record keys: sorted(all_keys) in the source. -/
def sorted_keys (records : List Record) : List String := sortStrings (all_keys records)

/-- The priority_fields list of the export functions. -/
def priority_fields : List String := ["nct_id", "title", "status", "lead_sponsor"]

/-- One step of the priority pull of the export functions: if the field is
present, remove its (first) occurrence and re-insert it at the front. -/
def pull_front (fieldnames : List String) (field : String) : List String :=
  if field ∈ fieldnames then field :: fieldnames.erase field else fieldnames

/-- The default column resolution of export_to_csv (identical in the
default branch of export_to_xlsx): sort the key union, then pull the
priority fields to the front iterating them in reversed order. -/
def csv_fieldnames (records : List Record) : List String :=
  priority_fields.reverse.foldl pull_front (sorted_keys records)

/-- Python truthiness of a JSON value (None, empty string, zero, empty list
and empty dict are falsy). -/
def JValue.truthy : JValue → Bool
  | .null => false
  | .str s => !(s == "")
  | .num n => !(n == 0)
  | .arr l => !l.isEmpty
  | .obj kvs => !kvs.isEmpty

/-- Field lookup inside an object; none for absent fields and for
non-object values. -/
def JValue.getField : JValue → String → Option JValue
  | .obj kvs, k => (kvs.find? (fun kv => kv.1 == k)).map (fun kv => kv.2)
  | _, _ => none

/-- Python d.get(k) with no default: None when absent, AttributeError when
the receiver is not a dict. -/
def jGet (v : JValue) (k : String) : Except PyErr JValue :=
  match v with
  | .obj _ => .ok ((v.getField k).getD .null)
  | _ => .error .attributeError

/-- Python d.get(k, default): AttributeError when the receiver is not a
dict. -/
def jGetD (v : JValue) (k : String) (d : JValue) : Except PyErr JValue :=
  match v with
  | .obj _ => .ok ((v.getField k).getD d)
  | _ => .error .attributeError

/-- Iterating a value as a list; non-lists raise TypeError.  (Python also
iterates strings and dict keys; the pipeline never does so on a
well-shaped document, and on a mis-shaped one both sides raise.) -/
def asList : JValue → Except PyErr (List JValue)
  | .arr l => .ok l
  | _ => .error .typeError

/-- Checked conversion of joined elements to strings: str.join raises
TypeError on a non-string element. -/
def asStrList : List JValue → Except PyErr (List String)
  | [] => .ok []
  | .str s :: vs => (asStrList vs).map (fun l => s :: l)
  | _ :: _ => .error .typeError

/-- Python sep.join(values). -/
def pyJoin (sep : String) (vs : List JValue) : Except PyErr JValue :=
  (asStrList vs).map (fun l => .str (String.intercalate sep l))

/-- Python equality between hashable scalar JSON values, as used by the
membership tests of the source (a non-scalar compared to a string is just
unequal). -/
def jvBeqFlat : JValue → JValue → Bool
  | .null, .null => true
  | .str a, .str b => a == b
  | .num a, .num b => a == b
  | _, _ => false

/-- Hashability: Python set() raises TypeError on lists and dicts. -/
def jvHashable : JValue → Bool
  | .null => true
  | .str _ => true
  | .num _ => true
  | .arr _ => false
  | .obj _ => false

/-- Membership up to jvBeqFlat. -/
def jvMemFlat (x : JValue) : List JValue → Bool
  | [] => false
  | y :: ys => jvBeqFlat x y || jvMemFlat x ys

/-- Deduplication of scalar values.  Python set() iteration order is
unspecified; this picks one concrete enumeration of the set contents. -/
def jvDedup : List JValue → List JValue
  | [] => []
  | x :: xs => if jvMemFlat x (jvDedup xs) then jvDedup xs else x :: jvDedup xs

/-- Python set(values): the deduplicated contents, or TypeError on an
unhashable element. -/
def pySet (l : List JValue) : Except PyErr (List JValue) :=
  if l.all jvHashable then .ok (jvDedup l) else .error .typeError

/-- get_organization_type applied to an arbitrary JSON value, as Python
does when the extracted lead sponsor name is not a string: a falsy value
fails the initial truthiness test (unknown), a truthy non-string raises
AttributeError at name.lower(). -/
def get_organization_type_py : JValue → Except PyErr String
  | .str s => .ok (get_organization_type s)
  | v => if v.truthy then .error .attributeError else .ok "unknown"

/-- The filter condition of extract_data:
lead_sponsor and should_include_organization(lead_sponsor), with the
short-circuit on falsy values and the AttributeError on truthy
non-strings. -/
def lead_filter_check (p : Prospector) : JValue → Except PyErr Bool
  | .str s => .ok (!(s == "") && should_include_organization p s)
  | v => if v.truthy then .error .attributeError else .ok false

/-- Python dict assignment d[k] = v: replace in place when the key exists,
append otherwise. -/
def rsetOne (r : Record) (k : String) (v : JValue) : Record :=
  if r.any (fun kv => kv.1 == k) then
    r.map (fun kv => if kv.1 == k then (k, v) else kv)
  else r ++ [(k, v)]

/-- Python dict.update. -/
def rupdate (r : Record) (upd : Record) : Record :=
  upd.foldl (fun acc kv => rsetOne acc kv.1 kv.2) r

/-- Python dict lookup returning an option. -/
def rlookup (r : Record) (k : String) : Option JValue :=
  (r.find? (fun kv => kv.1 == k)).map (fun kv => kv.2)

/-- The collaborator-name comprehension of the sponsors extractor. -/
def collabNames : List JValue → Except PyErr (List JValue)
  | [] => .ok []
  | c :: cs => do
    let n ← jGet c "name"
    if n.truthy then
      let n2 ← jGetD c "name" (.str "")
      let rest ← collabNames cs
      pure (n2 :: rest)
    else
      collabNames cs

/-- The falsy-coalescing module lookup of the sponsors extractor:
ps.get under the first spelling, or ps.get with default under the second
spelling when the first result is falsy. -/
def sponsorsModuleOf (ps : JValue) : Except PyErr JValue := do
  let smRaw ← jGet ps "sponsorsCollaboratorsModule"
  if smRaw.truthy then pure smRaw else jGetD ps "sponsorCollaboratorsModule" (.obj [])

/-- The sponsors extractor of the source (note that the classifier runs on
the lead sponsor value unconditionally here). -/
def extract_sponsors (ps : JValue) : Except PyErr Record := do
  let sm ← sponsorsModuleOf ps
  let ls1 ← jGetD sm "leadSponsor" (.obj [])
  let lead_sponsor ← jGetD ls1 "name" (.str "")
  let ls2 ← jGetD sm "leadSponsor" (.obj [])
  let lead_sponsor_class ← jGetD ls2 "class" (.str "")
  let collabsV ← jGetD sm "collaborators" (.arr [])
  let collaborators ← asList collabsV
  let collab_names ← collabNames collaborators
  let lead_sponsor_type ← get_organization_type_py lead_sponsor
  let collabJ ← pyJoin "; " collab_names
  pure [("lead_sponsor", lead_sponsor),
        ("lead_sponsor_class", lead_sponsor_class),
        ("lead_sponsor_type", .str lead_sponsor_type),
        ("collaborators", collabJ),
        ("collaborator_count", .num collab_names.length)]

/-- The role-filtered accumulation of the investigators extractor. -/
def officialsLoop : List JValue → Except PyErr (List JValue × List JValue)
  | [] => .ok ([], [])
  | o :: os => do
    let role ← jGet o "role"
    if jvBeqFlat role (.str "PRINCIPAL_INVESTIGATOR") || jvBeqFlat role (.str "STUDY_DIRECTOR") then
      let n ← jGetD o "name" (.str "")
      let a ← jGetD o "affiliation" (.str "")
      let rest ← officialsLoop os
      pure (n :: rest.1, a :: rest.2)
    else
      officialsLoop os

/-- The investigators extractor of the source. -/
def extract_investigators (ps : JValue) : Except PyErr Record := do
  let cm ← jGetD ps "contactsLocationsModule" (.obj [])
  let offsV ← jGetD cm "overallOfficials" (.arr [])
  let officials ← asList offsV
  let acc ← officialsLoop officials
  let nJ ← pyJoin "; " acc.1
  let aJ ← pyJoin "; " acc.2
  pure [("principal_investigators", nJ),
        ("pi_affiliations", aJ),
        ("pi_count", .num acc.1.length)]

/-- The truthiness-guarded accumulation of the locations extractor. -/
def locationsLoop : List JValue → Except PyErr (List JValue × List JValue × List JValue)
  | [] => .ok ([], [], [])
  | loc :: rest => do
    let f ← jGet loc "facility"
    let c ← jGet loc "city"
    let k ← jGet loc "country"
    let acc ← locationsLoop rest
    pure ((if f.truthy then f :: acc.1 else acc.1),
          (if c.truthy then c :: acc.2.1 else acc.2.1),
          (if k.truthy then k :: acc.2.2 else acc.2.2))

/-- The locations extractor of the source: set() deduplication before
joining, raw list length for the count. -/
def extract_locations (ps : JValue) : Except PyErr Record := do
  let cm ← jGetD ps "contactsLocationsModule" (.obj [])
  let locsV ← jGetD cm "locations" (.arr [])
  let locs ← asList locsV
  let acc ← locationsLoop locs
  let fD ← pySet acc.1
  let fJ ← pyJoin "; " fD
  let cD ← pySet acc.2.1
  let cJ ← pyJoin "; " cD
  let kD ← pySet acc.2.2
  let kJ ← pyJoin "; " kD
  pure [("facilities", fJ),
        ("cities", cJ),
        ("countries", kJ),
        ("location_count", .num locs.length)]

/-- The type-bucket classification of the interventions extractor. -/
def interventionsLoop :
    List JValue → Except PyErr (List JValue × List JValue × List JValue × List JValue)
  | [] => .ok ([], [], [], [])
  | i :: rest => do
    let t ← jGetD i "type" (.str "")
    let n ← jGetD i "name" (.str "")
    let acc ← interventionsLoop rest
    if jvBeqFlat t (.str "DRUG") then
      pure (n :: acc.1, acc.2.1, acc.2.2.1, acc.2.2.2)
    else if jvBeqFlat t (.str "DEVICE") then
      pure (acc.1, n :: acc.2.1, acc.2.2.1, acc.2.2.2)
    else if jvBeqFlat t (.str "PROCEDURE") || jvBeqFlat t (.str "SURGERY") then
      pure (acc.1, acc.2.1, n :: acc.2.2.1, acc.2.2.2)
    else
      pure (acc.1, acc.2.1, acc.2.2.1, n :: acc.2.2.2)

/-- The interventions extractor of the source. -/
def extract_interventions (ps : JValue) : Except PyErr Record := do
  let am ← jGetD ps "armsInterventionsModule" (.obj [])
  let ivsV ← jGetD am "interventions" (.arr [])
  let ivs ← asList ivsV
  let acc ← interventionsLoop ivs
  let dJ ← pyJoin "; " acc.1
  let vJ ← pyJoin "; " acc.2.1
  let pJ ← pyJoin "; " acc.2.2.1
  let oJ ← pyJoin "; " acc.2.2.2
  pure [("drugs", dJ),
        ("devices", vJ),
        ("procedures", pJ),
        ("other_interventions", oJ),
        ("intervention_count", .num ivs.length)]

/-- The conditions extractor of the source. -/
def extract_conditions (ps : JValue) : Except PyErr Record := do
  let cm ← jGetD ps "conditionsModule" (.obj [])
  let condsV ← jGetD cm "conditions" (.arr [])
  let conds ← asList condsV
  let kwsV ← jGetD cm "keywords" (.arr [])
  let kws ← asList kwsV
  let cJ ← pyJoin "; " conds
  let kJ ← pyJoin "; " kws
  pure [("conditions", cJ),
        ("keywords", kJ),
        ("condition_count", .num conds.length)]

/-- The measure comprehension of the outcomes extractor. -/
def measuresLoop : List JValue → Except PyErr (List JValue)
  | [] => .ok []
  | o :: os => do
    let m ← jGetD o "measure" (.str "")
    let rest ← measuresLoop os
    pure (m :: rest)

/-- The outcomes extractor of the source. -/
def extract_outcomes (ps : JValue) : Except PyErr Record := do
  let om ← jGetD ps "outcomesModule" (.obj [])
  let priV ← jGetD om "primaryOutcomes" (.arr [])
  let pri ← asList priV
  let secV ← jGetD om "secondaryOutcomes" (.arr [])
  let sec ← asList secV
  let priM ← measuresLoop pri
  let secM ← measuresLoop sec
  let pJ ← pyJoin "; " priM
  let sJ ← pyJoin "; " secM
  pure [("primary_outcomes", pJ),
        ("secondary_outcomes", sJ),
        ("primary_outcome_count", .num priM.length),
        ("secondary_outcome_count", .num secM.length)]

/-- The design extractor of the source. -/
def extract_design (ps : JValue) : Except PyErr Record := do
  let dm ← jGetD ps "designModule" (.obj [])
  let phasesV ← jGetD dm "phases" (.arr [])
  let study_type ← jGetD dm "studyType" (.str "")
  let enrollment ← jGetD dm "enrollmentInfo" (.obj [])
  let di ← jGetD dm "designInfo" (.obj [])
  let allocation ← jGetD di "allocation" (.str "")
  let intervention_model ← jGetD di "interventionModel" (.str "")
  let primary_purpose ← jGetD di "primaryPurpose" (.str "")
  let mi ← jGetD di "maskingInfo" (.obj [])
  let masking ← jGetD mi "masking" (.str "")
  let phases ← asList phasesV
  let phJ ← pyJoin ", " phases
  let cnt ← jGetD enrollment "count" (.num 0)
  pure [("phase", phJ),
        ("study_type", study_type),
        ("enrollment", cnt),
        ("allocation", allocation),
        ("intervention_model", intervention_model),
        ("primary_purpose", primary_purpose),
        ("masking", masking)]

/-- Python value[:500]: slices strings (and lists), raises TypeError
otherwise. -/
def pySlice500 : JValue → Except PyErr JValue
  | .str s => .ok (.str (s.take 500))
  | .arr l => .ok (.arr (l.take 500))
  | _ => .error .typeError

/-- The eligibility extractor of the source (criteria text truncated to
500 characters). -/
def extract_eligibility (ps : JValue) : Except PyErr Record := do
  let em ← jGetD ps "eligibilityModule" (.obj [])
  let mn ← jGetD em "minimumAge" (.str "")
  let mx ← jGetD em "maximumAge" (.str "")
  let sx ← jGetD em "sex" (.str "")
  let hv ← jGetD em "healthyVolunteers" (.str "")
  let ecV ← jGetD em "eligibilityCriteria" (.str "")
  let ec ← pySlice500 ecV
  pure [("min_age", mn),
        ("max_age", mx),
        ("sex", sx),
        ("healthy_volunteers", hv),
        ("eligibility_criteria", ec)]

/-- The truthiness-guarded accumulation of the contacts extractor. -/
def contactsLoop : List JValue → Except PyErr (List JValue × List JValue × List JValue)
  | [] => .ok ([], [], [])
  | c :: rest => do
    let n ← jGet c "name"
    let e ← jGet c "email"
    let ph ← jGet c "phone"
    let acc ← contactsLoop rest
    pure ((if n.truthy then n :: acc.1 else acc.1),
          (if e.truthy then e :: acc.2.1 else acc.2.1),
          (if ph.truthy then ph :: acc.2.2 else acc.2.2))

/-- The contacts extractor of the source. -/
def extract_contacts (ps : JValue) : Except PyErr Record := do
  let cm ← jGetD ps "contactsLocationsModule" (.obj [])
  let ccV ← jGetD cm "centralContacts" (.arr [])
  let ccs ← asList ccV
  let acc ← contactsLoop ccs
  let nJ ← pyJoin "; " acc.1
  let eJ ← pyJoin "; " acc.2.1
  let pJ ← pyJoin "; " acc.2.2
  pure [("contact_name", nJ),
        ("contact_email", eJ),
        ("contact_phone", pJ)]

/-- The timeline extractor of the source. -/
def extract_timeline (ps : JValue) : Except PyErr Record := do
  let sm ← jGetD ps "statusModule" (.obj [])
  let sds ← jGetD sm "startDateStruct" (.obj [])
  let start_date ← jGetD sds "date" (.str "")
  let cds ← jGetD sm "completionDateStruct" (.obj [])
  let completion_date ← jGetD cds "date" (.str "")
  let lds ← jGetD sm "lastUpdatePostDateStruct" (.obj [])
  let last_update ← jGetD lds "date" (.str "")
  pure [("start_date", start_date),
        ("completion_date", completion_date),
        ("last_update", last_update)]

/-- The prefix of the loop body of extract_data up to and including the
assignment of the nct_id loop variable (an exception here leaves nct_id
unassigned for this iteration). -/
def bind_nct (study : JValue) : Except PyErr (JValue × JValue) := do
  let ps ← jGetD study "protocolSection" (.obj [])
  let idm ← jGetD ps "identificationModule" (.obj [])
  let nct ← jGetD idm "nctId" (.str "")
  pure (ps, nct)

/-- One conditional extraction statement of extract_data:
if key in extraction_options, run the extractor and merge its output into
the record with dict.update. -/
def apply_extractor (p : Prospector) (ps : JValue) (key : String)
    (ex : JValue → Except PyErr Record) (e : Record) : Except PyErr Record :=
  if p.extraction_options.contains key then do
    let u ← ex ps
    pure (rupdate e u)
  else pure e

/-- The remainder of the loop body of extract_data: build the base record,
run the selected extractors in their fixed order, and apply the lead
sponsor filter when the sponsors extractor is selected.  Returns none for
a record dropped by the filter. -/
def extract_rest (p : Prospector) (ps : JValue) (nct_id : JValue) :
    Except PyErr (Option Record) := do
  let idm ← jGetD ps "identificationModule" (.obj [])
  let title ← jGetD idm "briefTitle" (.str "")
  let stm ← jGetD ps "statusModule" (.obj [])
  let status ← jGetD stm "overallStatus" (.str "")
  let e0 : Record := [("nct_id", nct_id), ("title", title), ("status", status)]
  let e1 ← apply_extractor p ps "sponsors" extract_sponsors e0
  let e2 ← apply_extractor p ps "investigators" extract_investigators e1
  let e3 ← apply_extractor p ps "locations" extract_locations e2
  let e4 ← apply_extractor p ps "interventions" extract_interventions e3
  let e5 ← apply_extractor p ps "conditions" extract_conditions e4
  let e6 ← apply_extractor p ps "outcomes" extract_outcomes e5
  let e7 ← apply_extractor p ps "design" extract_design e6
  let e8 ← apply_extractor p ps "eligibility" extract_eligibility e7
  let e9 ← apply_extractor p ps "contacts" extract_contacts e8
  let e10 ← apply_extractor p ps "timeline" extract_timeline e9
  if p.extraction_options.contains "sponsors" then
    let lead := (rlookup e10 "lead_sponsor").getD (.str "")
    let keep ← lead_filter_check p lead
    pure (if keep then some e10 else none)
  else
    pure (some e10)

/-- The for-loop of extract_data.  The second argument is the current
value of the nct_id loop variable from earlier iterations: the except
handler formats nct_id into its warning, so an exception raised before the
first successful nct_id assignment makes the handler itself raise
NameError, which propagates out of extract_data. -/
def extract_loop (p : Prospector) : List JValue → Option JValue → Except PyErr (List Record)
  | [], _ => .ok []
  | study :: rest, nctVar =>
    match bind_nct study with
    | .error _ =>
      match nctVar with
      | none => .error .nameError
      | some _ => extract_loop p rest nctVar
    | .ok (ps, nct) =>
      match extract_rest p ps nct with
      | .error _ => extract_loop p rest (some nct)
      | .ok none => extract_loop p rest (some nct)
      | .ok (some r) => (extract_loop p rest (some nct)).map (fun l => r :: l)

/-- extract_data of the source, on an explicit trial list. -/
def extract_data (p : Prospector) (trials : List JValue) : Except PyErr (List Record) :=
  extract_loop p trials none

/-- The pure per-trial outcome: the record a trial contributes when its
processing neither raises nor is dropped by the sponsor filter. -/
def trialResult (p : Prospector) (study : JValue) : Option Record :=
  match bind_nct study with
  | .error _ => none
  | .ok (ps, nct) =>
    match extract_rest p ps nct with
    | .ok (some r) => some r
    | _ => none

/-- A prospector built with all-default arguments: no include list, empty
exclude list, extraction options [sponsors]. -/
def pDefault : Prospector := mkProspector none none none

/-- A trial whose protocolSection is a string, so the nct_id line of
extract_data raises AttributeError before nct_id is assigned. -/
def badTrial : JValue := .obj [("protocolSection", .str "oops")]

/-- A well-formed trial with a commercial lead sponsor. -/
def goodTrial : JValue :=
  .obj [("protocolSection", .obj
    [("identificationModule", .obj
       [("nctId", .str "NCT00000001"), ("briefTitle", .str "A Trial")]),
     ("sponsorsCollaboratorsModule", .obj
       [("leadSponsor", .obj [("name", .str "Acme Therapeutics Inc")])])])]

/-- The record extract_data emits for goodTrial under pDefault. -/
def goodRecord : Record :=
  [("nct_id", .str "NCT00000001"),
   ("title", .str "A Trial"),
   ("status", .str ""),
   ("lead_sponsor", .str "Acme Therapeutics Inc"),
   ("lead_sponsor_class", .str ""),
   ("lead_sponsor_type", .str "company"),
   ("collaborators", .str ""),
   ("collaborator_count", .num 0)]

/-- Is the value a string. -/
def isStrB : JValue → Bool
  | .str _ => true
  | _ => false

/-- Trivial field constraint. -/
def anyOk : JValue → Bool := fun _ => true

/-- The value is a list all of whose elements satisfy the constraint. -/
def listOf (pred : JValue → Bool) : JValue → Bool
  | .arr l => l.all pred
  | _ => false

/-- Well-shapedness of an object against a list of per-field constraints:
the value must be an object, and every listed field, IF present, must
satisfy its constraint.  Absent fields are always fine (this is exactly
the shape class quantified over by the missing-data claim), and fields not
listed are unconstrained. -/
def shapeOf (v : JValue) (fields : List (String × (JValue → Bool))) : Bool :=
  match v with
  | .obj _ => fields.all (fun kf =>
      match v.getField kf.1 with
      | some x => kf.2 x
      | none => true)
  | _ => false

/-- Object with no constrained fields. -/
def objShape (v : JValue) : Bool := shapeOf v []

/-- Shape of the leadSponsor object of the sponsors module. -/
def leadSponsorShape (v : JValue) : Bool := shapeOf v [("name", isStrB)]

/-- Shape of one collaborator entry. -/
def collaboratorShape (v : JValue) : Bool := shapeOf v [("name", isStrB)]

/-- Shape of one overall official entry. -/
def officialShape (v : JValue) : Bool := shapeOf v [("name", isStrB), ("affiliation", isStrB)]

/-- Shape of one location entry. -/
def locationShape (v : JValue) : Bool :=
  shapeOf v [("facility", isStrB), ("city", isStrB), ("country", isStrB)]

/-- Shape of one intervention entry. -/
def interventionShape (v : JValue) : Bool := shapeOf v [("name", isStrB)]

/-- Shape of one outcome entry. -/
def outcomeShape (v : JValue) : Bool := shapeOf v [("measure", isStrB)]

/-- Shape of one central contact entry. -/
def contactShape (v : JValue) : Bool :=
  shapeOf v [("name", isStrB), ("email", isStrB), ("phone", isStrB)]

/-- Shape of the sponsors module under either of its two spellings. -/
def sponsorsModShape (v : JValue) : Bool :=
  shapeOf v [("leadSponsor", leadSponsorShape), ("collaborators", listOf collaboratorShape)]

/-- Shape of the contacts and locations module. -/
def contactsLocShape (v : JValue) : Bool :=
  shapeOf v [("overallOfficials", listOf officialShape),
             ("locations", listOf locationShape),
             ("centralContacts", listOf contactShape)]

/-- Shape of the arms and interventions module. -/
def armsShape (v : JValue) : Bool := shapeOf v [("interventions", listOf interventionShape)]

/-- Shape of the conditions module. -/
def conditionsShape (v : JValue) : Bool :=
  shapeOf v [("conditions", listOf isStrB), ("keywords", listOf isStrB)]

/-- Shape of the outcomes module. -/
def outcomesShape (v : JValue) : Bool :=
  shapeOf v [("primaryOutcomes", listOf outcomeShape), ("secondaryOutcomes", listOf outcomeShape)]

/-- Shape of the design info sub-object. -/
def designInfoShape (v : JValue) : Bool := shapeOf v [("maskingInfo", objShape)]

/-- Shape of the design module. -/
def designShape (v : JValue) : Bool :=
  shapeOf v [("phases", listOf isStrB), ("enrollmentInfo", objShape), ("designInfo", designInfoShape)]

/-- Shape of the eligibility module. -/
def eligibilityShape (v : JValue) : Bool := shapeOf v [("eligibilityCriteria", isStrB)]

/-- Shape of the status module (for the timeline extractor). -/
def statusModShape (v : JValue) : Bool :=
  shapeOf v [("startDateStruct", objShape), ("completionDateStruct", objShape),
             ("lastUpdatePostDateStruct", objShape)]

/-- Shape of a protocolSection: each module, if present, is an object of
the right shape; string-valued leaves, if present, are strings.  Every
field may be absent. -/
def psShape (v : JValue) : Bool :=
  shapeOf v [("identificationModule", objShape),
             ("statusModule", statusModShape),
             ("sponsorsCollaboratorsModule", sponsorsModShape),
             ("sponsorCollaboratorsModule", sponsorsModShape),
             ("contactsLocationsModule", contactsLocShape),
             ("armsInterventionsModule", armsShape),
             ("conditionsModule", conditionsShape),
             ("outcomesModule", outcomesShape),
             ("designModule", designShape),
             ("eligibilityModule", eligibilityShape)]

/-- A raw trial document in which every accessed path is either absent or
carries a value of the type the code expects. -/
def wellShaped (v : JValue) : Bool := shapeOf v [("protocolSection", psShape)]

/-- Shape constraining only the locations list of the module. -/
def locOnlyShape (v : JValue) : Bool := shapeOf v [("locations", listOf locationShape)]

/-- Shape of a protocolSection sufficient for the locations extractor. -/
def locReadyShape (ps : JValue) : Bool := shapeOf ps [("contactsLocationsModule", locOnlyShape)]

/-- The raw (non-deduplicated) location entry list of a protocolSection. -/
def rawLocations (ps : JValue) : List JValue :=
  match ((ps.getField "contactsLocationsModule").getD (JValue.obj [])).getField "locations" with
  | some (JValue.arr l) => l
  | _ => []

/-- The string values of one location field, collected over the location
entries that carry the field with a truthy value, in entry order. -/
def collectedLocField (field : String) (l : List JValue) : List String :=
  l.filterMap (fun loc =>
    match loc.getField field with
    | some (JValue.str s) => if s = "" then none else some s
    | _ => none)

/-- A prospector selecting the timeline extractor only (no sponsors
extractor, so that the lead sponsor filter does not drop the empty
document). -/
def pTimelineOnly : Prospector := ⟨none, [], ["timeline"]⟩

/-- The record extract_data produces for the empty document under
pTimelineOnly: the base fields and every timeline field resolve to the
empty string. -/
def emptyDocRecord : Record :=
  [("nct_id", .str ""), ("title", .str ""), ("status", .str ""),
   ("start_date", .str ""), ("completion_date", .str ""), ("last_update", .str "")]

/-- A protocolSection with a duplicate facility, scattered missing fields
and one empty location entry. -/
def locationsDemoSection : JValue :=
  .obj [("contactsLocationsModule", .obj [("locations", .arr
    [.obj [("facility", .str "Site A"), ("city", .str "Paris")],
     .obj [("facility", .str "Site A"), ("country", .str "France")],
     .obj []])])]

/-- One page of the remote registry response: the studies of the page and
the optional continuation token. -/
structure Page (α : Type) where
  studies : List α
  nextPageToken : Option Nat

/-- An abstract paginated source: requested page size and current token
give a page, or none for a transport failure (the RequestException branch
of the loop). -/
def FetchSource (α : Type) : Type := Nat → Option Nat → Option (Page α)

/-- Instrumented outcome of the fetch loop: accumulated records, number of
loop body executions, and for each request its size and the accumulated
count at request time. -/
structure FetchRun (α : Type) where
  result : List α
  iters : Nat
  requests : List Nat
  accBefore : List Nat

/-- The pagination loop of fetch_trials.  The fuel argument only bounds
recursion; every continuing iteration appends at least one record, so fuel
equal to max_results never cuts the loop short.  The politeness sleep is a
no-op and is not modelled. -/
def fetch_go {α : Type} (src : FetchSource α) (max_results : Nat) :
    Nat → List α → Option Nat → FetchRun α
  | 0, acc, _ => ⟨acc, 0, [], []⟩
  | fuel + 1, acc, token =>
    if acc.length < max_results then
      match src (min 100 (max_results - acc.length)) token with
      | none => ⟨acc, 1, [min 100 (max_results - acc.length)], [acc.length]⟩
      | some page =>
        if page.studies.isEmpty then
          ⟨acc, 1, [min 100 (max_results - acc.length)], [acc.length]⟩
        else
          match page.nextPageToken with
          | none => ⟨acc ++ page.studies, 1, [min 100 (max_results - acc.length)], [acc.length]⟩
          | some t =>
            let child := fetch_go src max_results fuel (acc ++ page.studies) (some t)
            ⟨child.result, child.iters + 1,
             min 100 (max_results - acc.length) :: child.requests,
             acc.length :: child.accBefore⟩
    else ⟨acc, 0, [], []⟩

/-- fetch_trials of the source over an abstract paginated source. -/
def fetch_trials {α : Type} (src : FetchSource α) (max_results : Nat) : FetchRun α :=
  fetch_go src max_results max_results [] none

/-- A source that answers every request with a single record and a
continuation token, regardless of the requested page size. -/
def srcOnes : FetchSource Nat := fun _ _ => some ⟨[0], some 0⟩

/-- The stub source of the specification: two pages of records, then an
empty page. -/
def srcTwoPages : FetchSource Nat := fun _ tok =>
  match tok with
  | none => some ⟨[10, 11], some 1⟩
  | some 1 => some ⟨[12, 13], some 2⟩
  | some _ => some ⟨[], none⟩

/-- A source that always fills the requested page size exactly and never
continues. -/
def srcFull : FetchSource Nat := fun sz _ => some ⟨List.range sz, none⟩

/-- The cell DictWriter writes for one record and one fieldname: a missing
key (restval None) and a None value become the empty string, strings are
written as is, integers via str().  The csv cell transport itself is
modelled as exact (rows of string cells); non-scalar values never occur in
the claims considered. -/
def cellOf (r : Record) (f : String) : String :=
  match rlookup r f with
  | some (JValue.str s) => s
  | some (JValue.num n) => toString n
  | _ => ""

/-- The rows written by export_to_csv: the header of resolved fieldnames
followed by one row of cells per record, in fieldnames order. -/
def export_rows (records : List Record) : List (List String) :=
  csv_fieldnames records :: records.map (fun r => (csv_fieldnames records).map (cellOf r))

/-- export_to_csv of the source: none (early return) on empty data,
otherwise the written rows. -/
def export_to_csv (records : List Record) : Option (List (List String)) :=
  if records.isEmpty then none else some (export_rows records)

/-- Re-parsing the delimited artifact with csv.DictReader: each data row
is zipped with the header row. -/
def dictreader_rows (rows : List (List String)) : List Record :=
  match rows with
  | [] => []
  | header :: body =>
    body.map (fun cells => (header.zip cells).map (fun pr => (pr.1, JValue.str pr.2)))

/-- First of the two records of the round-trip counterexample. -/
def recA : Record := [("a", JValue.str "x")]

/-- Second of the two records of the round-trip counterexample. -/
def recB : Record := [("b", JValue.str "y")]

/-- The early-return taxonomy scan equals: first entry, in order, that is
not the company entry and has a keyword hit. -/
theorem findOrgType_eq_filter_head (nl : String) (l : List OrgEntry) :
    findOrgType nl l =
      ((l.filter (fun e =>
        e.key != "company" && e.keywords.any (fun kw => strContains nl kw))).head?).map
        OrgEntry.key := by
  induction l with
  | nil => rfl
  | cons e rest ih =>
    simp only [findOrgType, List.filter_cons]
    cases hkey : (e.key == "company") with
    | true => simp [bne, hkey, ih]
    | false =>
      cases hany : e.keywords.any (fun kw => strContains nl kw) with
      | true => simp [bne, hkey, hany]
      | false => simp [bne, hkey, hany, ih]

/-- C1: get_organization_type is a total function; for a non-empty name it
returns the key of the first taxonomy entry, in defined order and skipping
the company fallback entry, with a keyword that is a substring of the
lowercased name (all taxonomy keywords are lowercase-fixed, so this is
case-insensitive matching); with no hit it returns company, and for the
empty name it returns unknown.  Anchors: a name matching both the
university and hospital categories resolves to the earlier entry. -/
theorem claim1_classifier_first_match :
    (∀ name : String,
      get_organization_type name =
        if name = "" then "unknown"
        else
          (((ORGANIZATION_TYPES.filter (fun e =>
              e.key != "company" &&
              e.keywords.any (fun kw => strContains (lowerStr name) kw))).head?).map
            OrgEntry.key).getD "company")
    ∧ get_organization_type "" = "unknown"
    ∧ get_organization_type "University Medical Center" = "university"
    ∧ get_organization_type "Xyzzy Biotech" = "company"
    ∧ ORGANIZATION_TYPES.all (fun e => e.keywords.all (fun kw => lowerStr kw == kw)) = true := by
  refine ⟨?_, by decide, by decide, by decide, by decide⟩
  intro name
  by_cases h : name = ""
  · simp [get_organization_type, h]
  · simp only [get_organization_type, h, if_false]
    rw [findOrgType_eq_filter_head]
    cases ((ORGANIZATION_TYPES.filter (fun e =>
        e.key != "company" &&
        e.keywords.any (fun kw => strContains (lowerStr name) kw))).head?) with
    | none => rfl
    | some e => rfl

/-- C2: should_include_organization rejects the empty name; with an include
list configured the result is membership of the category in that list (the
exclude list plays no part), otherwise it is non-membership in the exclude
list (an empty exclude list includes everything).  Anchors: with include
list [company], the name Acme Therapeutics Inc is included and the name
State University Hospital is not. -/
theorem claim2_should_include_rules :
    (∀ (incl excl opts : List String) (name : String),
      should_include_organization ⟨some incl, excl, opts⟩ name =
        (!(name == "") && incl.contains (get_organization_type name)))
    ∧ (∀ (excl opts : List String) (name : String),
      should_include_organization ⟨none, excl, opts⟩ name =
        (!(name == "") && !(excl.contains (get_organization_type name))))
    ∧ should_include_organization (mkProspector (some ["company"]) none none)
        "Acme Therapeutics Inc" = true
    ∧ should_include_organization (mkProspector (some ["company"]) none none)
        "State University Hospital" = false := by
  refine ⟨?_, ?_, by decide, by decide⟩
  · intro incl excl opts name
    by_cases h : name = "" <;> simp [should_include_organization, h]
  · intro excl opts name
    by_cases h : name = "" <;> simp [should_include_organization, h]

/-- C9: an empty include list excludes every organization, while include
list None falls through to the exclude rule; and whenever some include list
is configured, the exclude list and extraction options have no influence on
should_include_organization. -/
theorem claim9_empty_include_list_vs_none :
    (∀ (e o : Option (List String)) (name : String),
      should_include_organization (mkProspector (some []) e o) name = false)
    ∧ (∀ (e o : Option (List String)) (name : String),
      should_include_organization (mkProspector none e o) name =
        (!(name == "") &&
          !((mkProspector none e o).exclude_types.contains (get_organization_type name))))
    ∧ (∀ (l : List String) (e eAlt o oAlt : Option (List String)) (name : String),
      should_include_organization (mkProspector (some l) e o) name =
        should_include_organization (mkProspector (some l) eAlt oAlt) name) := by
  refine ⟨?_, ?_, ?_⟩
  · intro e o name
    by_cases h : name = "" <;> simp [should_include_organization, mkProspector, h]
  · intro e o name
    by_cases h : name = "" <;> simp [should_include_organization, mkProspector, h]
  · intro l e eAlt o oAlt name
    by_cases h : name = "" <;> simp [should_include_organization, mkProspector, h]

theorem insertSorted_perm (x : String) (l : List String) :
    (insertSorted x l).Perm (x :: l) := by
  induction l with
  | nil => exact List.Perm.refl _
  | cons y ys ih =>
    unfold insertSorted
    cases h : strLeB x y with
    | true => exact List.Perm.refl _
    | false => exact (ih.cons y).trans (List.Perm.swap x y ys)

theorem sortStrings_perm (l : List String) : (sortStrings l).Perm l := by
  induction l with
  | nil => exact List.Perm.refl _
  | cons x xs ih =>
    exact (insertSorted_perm x (sortStrings xs)).trans (ih.cons x)

theorem sorted_keys_nodup (records : List Record) : (sorted_keys records).Nodup :=
  ((sortStrings_perm (all_keys records)).nodup_iff).mpr (List.nodup_dedup _)

theorem mem_sorted_keys (records : List Record) (x : String) :
    x ∈ sorted_keys records ↔ x ∈ ((records.map recordKeys).flatten) := by
  rw [sorted_keys, (sortStrings_perm _).mem_iff, all_keys, List.mem_dedup]

/-- The reversed-iteration pull-to-front loop of the export functions
equals: the present priority fields first, in priority order, followed by
the sorted keys that are not priority fields. -/
theorem foldl_pull_front_eq :
    ∀ (prio : List String), prio.Nodup → ∀ S : List String, S.Nodup →
      prio.reverse.foldl pull_front S =
        prio.filter (fun f => decide (f ∈ S)) ++ S.filter (fun f => decide (f ∉ prio)) := by
  intro prio
  induction prio with
  | nil =>
    intro _ S _
    simp
  | cons p ps ih =>
    intro hnd S hS
    have hpnotin : p ∉ ps := (List.nodup_cons.mp hnd).1
    have hpsnd : ps.Nodup := (List.nodup_cons.mp hnd).2
    have hfold : (p :: ps).reverse.foldl pull_front S
        = pull_front (ps.reverse.foldl pull_front S) p := by
      rw [List.reverse_cons, List.foldl_append]
      rfl
    rw [hfold, ih hpsnd S hS]
    by_cases hpS : p ∈ S
    · have hpL1 : p ∉ ps.filter (fun f => decide (f ∈ S)) := by
        intro hmem
        exact hpnotin (List.mem_of_mem_filter hmem)
      have hpL2 : p ∈ S.filter (fun f => decide (f ∉ ps)) := by
        rw [List.mem_filter]
        exact ⟨hpS, by simpa using hpnotin⟩
      have hcontains : p ∈ ps.filter (fun f => decide (f ∈ S)) ++ S.filter (fun f => decide (f ∉ ps)) :=
        List.mem_append.mpr (Or.inr hpL2)
      rw [pull_front, if_pos hcontains]
      rw [List.erase_append_right _ hpL1]
      rw [(hS.filter _).erase_eq_filter, List.filter_filter]
      have hfeq : S.filter (fun a => (a != p) && decide (a ∉ ps))
          = S.filter (fun f => decide (f ∉ p :: ps)) := by
        apply List.filter_congr
        intro x _
        by_cases h1 : x = p <;> by_cases h2 : x ∈ ps <;>
          simp [h1, h2, List.mem_cons]
      rw [hfeq]
      simp [List.filter_cons, hpS]
    · have hcontains : p ∉ ps.filter (fun f => decide (f ∈ S)) ++ S.filter (fun f => decide (f ∉ ps)) := by
        intro hmem
        rcases List.mem_append.mp hmem with h | h
        · exact hpnotin (List.mem_of_mem_filter h)
        · exact hpS (List.mem_of_mem_filter h)
      rw [pull_front, if_neg hcontains]
      have h1 : (p :: ps).filter (fun f => decide (f ∈ S)) = ps.filter (fun f => decide (f ∈ S)) := by
        simp [List.filter_cons, hpS]
      have h2 : S.filter (fun f => decide (f ∉ p :: ps)) = S.filter (fun f => decide (f ∉ ps)) := by
        apply List.filter_congr
        intro x hx
        have hxp : x ≠ p := fun heq => hpS (heq ▸ hx)
        by_cases h2 : x ∈ ps <;> simp [h2, hxp, List.mem_cons]
      rw [h1, h2]

/-- C4: with no explicit column order, the resolved export columns are the
lexicographically sorted union of all record keys with the present fields
among nct_id, title, status, lead_sponsor moved to the front in exactly
that order; anchored on the two worked examples of the specification. -/
theorem claim4_export_column_order :
    (∀ records : List Record,
      csv_fieldnames records =
        priority_fields.filter (fun f => decide (f ∈ sorted_keys records)) ++
        (sorted_keys records).filter (fun f => decide (f ∉ priority_fields)))
    ∧ csv_fieldnames [[("a", .num 1), ("b", .num 2)], [("b", .num 3), ("c", .num 4)]]
        = ["a", "b", "c"]
    ∧ csv_fieldnames [[("nct_id", .num 1), ("title", .num 2), ("status", .num 3),
        ("lead_sponsor", .num 4), ("a", .num 5)]]
        = ["nct_id", "title", "status", "lead_sponsor", "a"] := by
  refine ⟨?_, rfl, rfl⟩
  intro records
  exact foldl_pull_front_eq priority_fields (by decide) (sorted_keys records)
    (sorted_keys_nodup records)

/-- C5 (code bug witness): when the very first trial raises before its
nct_id is read, the except handler of extract_data references the unbound
nct_id variable and itself raises NameError, so the whole run aborts and
the remaining trials contribute nothing; the same bad trial placed after a
successful one is skipped and processing continues, as the claim
describes. -/
theorem claim5_first_trial_handler_name_error :
    extract_data pDefault [badTrial, goodTrial] = .error .nameError
    ∧ extract_data pDefault [goodTrial, badTrial] = .ok [goodRecord]
    ∧ extract_data pDefault [goodTrial] = .ok [goodRecord] := by
  refine ⟨rfl, rfl, rfl⟩

theorem extract_loop_ok_eq (p : Prospector) :
    ∀ (trials : List JValue) (nctVar : Option JValue) (out : List Record),
      extract_loop p trials nctVar = .ok out → out = trials.filterMap (trialResult p) := by
  intro trials
  induction trials with
  | nil =>
    intro nctVar out h
    simp only [extract_loop] at h
    cases h
    rfl
  | cons study rest ih =>
    intro nctVar out h
    simp only [extract_loop] at h
    cases hb : bind_nct study with
    | error e =>
      rw [hb] at h
      cases nctVar with
      | none => cases h
      | some v =>
        rw [List.filterMap_cons]
        simp only [trialResult, hb]
        exact ih _ _ h
    | ok pr =>
      obtain ⟨ps, nct⟩ := pr
      rw [hb] at h
      simp only at h
      cases hr : extract_rest p ps nct with
      | error e =>
        rw [hr] at h
        rw [List.filterMap_cons]
        simp only [trialResult, hb, hr]
        exact ih _ _ h
      | ok o =>
        rw [hr] at h
        cases o with
        | none =>
          rw [List.filterMap_cons]
          simp only [trialResult, hb, hr]
          exact ih _ _ h
        | some r =>
          cases hrec : extract_loop p rest (some nct) with
          | error e =>
            rw [hrec] at h
            cases h
          | ok l =>
            rw [hrec] at h
            cases h
            rw [List.filterMap_cons]
            simp only [trialResult, hb, hr]
            rw [ih _ _ hrec]

/-- C10: whenever extract_data returns a list (rather than raising), that
list is exactly the per-trial extraction mapped over the subsequence of
input trials that neither raise nor are dropped by the sponsor filter,
in input order: filterMap never reorders, duplicates or merges records. -/
theorem claim10_extract_data_preserves_order :
    ∀ (p : Prospector) (trials : List JValue) (out : List Record),
      extract_data p trials = .ok out → out = trials.filterMap (trialResult p) := by
  intro p trials out h
  exact extract_loop_ok_eq p trials none out h

/-- C10 witness: the order theorem applied at a concrete run. -/
theorem claim10_witness :
    extract_data pDefault [goodTrial, badTrial] = .ok [goodRecord]
    ∧ [goodRecord] = [goodTrial, badTrial].filterMap (trialResult pDefault) :=
  ⟨rfl, claim10_extract_data_preserves_order pDefault [goodTrial, badTrial] [goodRecord] rfl⟩

theorem jGetD_of_shape {v : JValue} {fields : List (String × (JValue → Bool))}
    (h : shapeOf v fields = true) (k : String) (d : JValue) :
    jGetD v k d = .ok ((v.getField k).getD d) := by
  cases v with
  | obj kvs => rfl
  | null => simp [shapeOf] at h
  | str s => simp [shapeOf] at h
  | num n => simp [shapeOf] at h
  | arr l => simp [shapeOf] at h

theorem jGet_of_shape {v : JValue} {fields : List (String × (JValue → Bool))}
    (h : shapeOf v fields = true) (k : String) :
    jGet v k = .ok ((v.getField k).getD .null) := by
  cases v with
  | obj kvs => rfl
  | null => simp [shapeOf] at h
  | str s => simp [shapeOf] at h
  | num n => simp [shapeOf] at h
  | arr l => simp [shapeOf] at h

theorem getField_pred_of_shape {v : JValue} {fields : List (String × (JValue → Bool))}
    {k : String} {q : JValue → Bool}
    (h : shapeOf v fields = true) (hmem : (k, q) ∈ fields)
    {d : JValue} (hd : q d = true) :
    q ((v.getField k).getD d) = true := by
  cases v with
  | obj kvs =>
    simp only [shapeOf, List.all_eq_true] at h
    have hk := h (k, q) hmem
    cases hf : (JValue.obj kvs).getField k with
    | none => simpa [hf] using hd
    | some x =>
      rw [hf] at hk
      simpa [hf] using hk
  | null => simp [shapeOf] at h
  | str s => simp [shapeOf] at h
  | num n => simp [shapeOf] at h
  | arr l => simp [shapeOf] at h

theorem jGetD_shape_field {v : JValue} {fields : List (String × (JValue → Bool))}
    {k : String} {q : JValue → Bool}
    (h : shapeOf v fields = true) (hmem : (k, q) ∈ fields)
    {d : JValue} (hd : q d = true) :
    ∃ x, jGetD v k d = .ok x ∧ q x = true :=
  ⟨(v.getField k).getD d, jGetD_of_shape h k d, getField_pred_of_shape h hmem hd⟩

theorem listOf_elim {pred : JValue → Bool} {v : JValue} (h : listOf pred v = true) :
    ∃ l, v = .arr l ∧ ∀ x ∈ l, pred x = true := by
  cases v with
  | arr l =>
    refine ⟨l, rfl, ?_⟩
    simpa [listOf, List.all_eq_true] using h
  | null => simp [listOf] at h
  | str s => simp [listOf] at h
  | num n => simp [listOf] at h
  | obj kvs => simp [listOf] at h

theorem isStrB_elim {v : JValue} (h : isStrB v = true) : ∃ s, v = .str s := by
  cases v with
  | str s => exact ⟨s, rfl⟩
  | null => simp [isStrB] at h
  | num n => simp [isStrB] at h
  | arr l => simp [isStrB] at h
  | obj kvs => simp [isStrB] at h

theorem asStrList_ok {l : List JValue} (h : ∀ x ∈ l, isStrB x = true) :
    ∃ strs, asStrList l = .ok strs := by
  induction l with
  | nil => exact ⟨[], rfl⟩
  | cons x xs ih =>
    obtain ⟨s, rfl⟩ := isStrB_elim (h x (List.mem_cons_self x xs))
    obtain ⟨strs, hstrs⟩ := ih (fun y hy => h y (List.mem_cons_of_mem _ hy))
    exact ⟨s :: strs, by simp [asStrList, hstrs, Except.map]⟩

theorem pyJoin_ok (sep : String) {l : List JValue} (h : ∀ x ∈ l, isStrB x = true) :
    ∃ s, pyJoin sep l = .ok (.str s) := by
  obtain ⟨strs, hstrs⟩ := asStrList_ok h
  exact ⟨String.intercalate sep strs, by simp [pyJoin, hstrs, Except.map]⟩

theorem jvDedup_subset {l : List JValue} {x : JValue} (h : x ∈ jvDedup l) : x ∈ l := by
  induction l with
  | nil => simp [jvDedup] at h
  | cons y ys ih =>
    simp only [jvDedup] at h
    by_cases hm : jvMemFlat y (jvDedup ys)
    · rw [if_pos hm] at h
      exact List.mem_cons_of_mem _ (ih h)
    · rw [if_neg hm] at h
      rcases List.mem_cons.mp h with h | h
      · exact h ▸ List.mem_cons_self y ys
      · exact List.mem_cons_of_mem _ (ih h)

theorem pySet_ok {l : List JValue} (h : ∀ x ∈ l, isStrB x = true) :
    ∃ l2, pySet l = .ok l2 ∧ ∀ x ∈ l2, isStrB x = true := by
  refine ⟨jvDedup l, ?_, fun x hx => h x (jvDedup_subset hx)⟩
  have hall : l.all jvHashable = true := by
    rw [List.all_eq_true]
    intro x hx
    obtain ⟨s, rfl⟩ := isStrB_elim (h x hx)
    rfl
  simp [pySet, hall]

theorem exc_bind_ok {ε α β : Type} (a : α) (f : α → Except ε β) :
    (Except.ok a >>= f : Except ε β) = f a := rfl

theorem exc_pure_eq {ε α : Type} (a : α) : (pure a : Except ε α) = Except.ok a := rfl

theorem getField_pred_or_default {v : JValue} {fields : List (String × (JValue → Bool))}
    {k : String} {q : JValue → Bool}
    (h : shapeOf v fields = true) (hmem : (k, q) ∈ fields) (d : JValue) :
    q ((v.getField k).getD d) = true ∨ (v.getField k).getD d = d := by
  cases v with
  | obj kvs =>
    simp only [shapeOf, List.all_eq_true] at h
    have hk := h (k, q) hmem
    cases hf : (JValue.obj kvs).getField k with
    | none => right; simp [hf]
    | some x =>
      left
      rw [hf] at hk
      simpa [hf] using hk
  | null => simp [shapeOf] at h
  | str s => simp [shapeOf] at h
  | num n => simp [shapeOf] at h
  | arr l => simp [shapeOf] at h

theorem truthy_cons_all_str {f : JValue} {acc : List JValue}
    (hd : isStrB f = true ∨ f = .null) (hacc : ∀ x ∈ acc, isStrB x = true) :
    ∀ x ∈ (if f.truthy then f :: acc else acc), isStrB x = true := by
  by_cases ht : f.truthy = true
  · rcases hd with hd | rfl
    · intro x hx
      rw [if_pos ht] at hx
      rcases List.mem_cons.mp hx with rfl | hx
      · exact hd
      · exact hacc x hx
    · simp [JValue.truthy] at ht
  · intro x hx
    rw [if_neg ht] at hx
    exact hacc x hx

theorem extract_timeline_ok {ps : JValue} (h : psShape ps = true) :
    ∃ u, extract_timeline ps = .ok u ∧ ∀ kv ∈ u, kv.1 ≠ "lead_sponsor" := by
  obtain ⟨sm, hsm, hsmS⟩ := jGetD_shape_field (k := "statusModule")
    (q := statusModShape) h (by simp [psShape]) (d := JValue.obj []) rfl
  obtain ⟨sds, hsds, hsdsS⟩ := jGetD_shape_field (k := "startDateStruct")
    (q := objShape) hsmS (by simp [statusModShape]) (d := JValue.obj []) rfl
  obtain ⟨cds, hcds, hcdsS⟩ := jGetD_shape_field (k := "completionDateStruct")
    (q := objShape) hsmS (by simp [statusModShape]) (d := JValue.obj []) rfl
  obtain ⟨lds, hlds, hldsS⟩ := jGetD_shape_field (k := "lastUpdatePostDateStruct")
    (q := objShape) hsmS (by simp [statusModShape]) (d := JValue.obj []) rfl
  have h1 := jGetD_of_shape hsdsS "date" (.str "")
  have h2 := jGetD_of_shape hcdsS "date" (.str "")
  have h3 := jGetD_of_shape hldsS "date" (.str "")
  refine ⟨[("start_date", (sds.getField "date").getD (.str "")),
           ("completion_date", (cds.getField "date").getD (.str "")),
           ("last_update", (lds.getField "date").getD (.str ""))], ?_, ?_⟩
  · simp only [extract_timeline, hsm, hsds, hcds, hlds, h1, h2, h3, exc_bind_ok, exc_pure_eq]
  · intro kv hkv
    simp only [List.mem_cons, List.not_mem_nil, or_false] at hkv
    rcases hkv with rfl | rfl | rfl <;> simp

theorem extract_eligibility_ok {ps : JValue} (h : psShape ps = true) :
    ∃ u, extract_eligibility ps = .ok u ∧ ∀ kv ∈ u, kv.1 ≠ "lead_sponsor" := by
  obtain ⟨em, hem, hemS⟩ := jGetD_shape_field (k := "eligibilityModule")
    (q := eligibilityShape) h (by simp [psShape]) (d := JValue.obj []) rfl
  have h1 := jGetD_of_shape hemS "minimumAge" (.str "")
  have h2 := jGetD_of_shape hemS "maximumAge" (.str "")
  have h3 := jGetD_of_shape hemS "sex" (.str "")
  have h4 := jGetD_of_shape hemS "healthyVolunteers" (.str "")
  obtain ⟨ec, hec, hecS⟩ := jGetD_shape_field (k := "eligibilityCriteria")
    (q := isStrB) hemS (by simp [eligibilityShape]) (d := JValue.str "") rfl
  obtain ⟨s, rfl⟩ := isStrB_elim hecS
  refine ⟨[("min_age", (em.getField "minimumAge").getD (.str "")),
           ("max_age", (em.getField "maximumAge").getD (.str "")),
           ("sex", (em.getField "sex").getD (.str "")),
           ("healthy_volunteers", (em.getField "healthyVolunteers").getD (.str "")),
           ("eligibility_criteria", .str (s.take 500))], ?_, ?_⟩
  · simp only [extract_eligibility, hem, h1, h2, h3, h4, hec, pySlice500,
      exc_bind_ok, exc_pure_eq]
  · intro kv hkv
    simp only [List.mem_cons, List.not_mem_nil, or_false] at hkv
    rcases hkv with rfl | rfl | rfl | rfl | rfl <;> simp

theorem extract_conditions_ok {ps : JValue} (h : psShape ps = true) :
    ∃ u, extract_conditions ps = .ok u ∧ ∀ kv ∈ u, kv.1 ≠ "lead_sponsor" := by
  obtain ⟨cm, hcm, hcmS⟩ := jGetD_shape_field (k := "conditionsModule")
    (q := conditionsShape) h (by simp [psShape]) (d := JValue.obj []) rfl
  obtain ⟨cv, hcv, hcvS⟩ := jGetD_shape_field (k := "conditions")
    (q := listOf isStrB) hcmS (by simp [conditionsShape]) (d := JValue.arr []) rfl
  obtain ⟨cl, rfl, hclS⟩ := listOf_elim hcvS
  obtain ⟨kv2, hkv2, hkv2S⟩ := jGetD_shape_field (k := "keywords")
    (q := listOf isStrB) hcmS (by simp [conditionsShape]) (d := JValue.arr []) rfl
  obtain ⟨kl, rfl, hklS⟩ := listOf_elim hkv2S
  obtain ⟨cs, hcs⟩ := pyJoin_ok "; " hclS
  obtain ⟨ks, hks⟩ := pyJoin_ok "; " hklS
  refine ⟨[("conditions", .str cs), ("keywords", .str ks),
           ("condition_count", .num cl.length)], ?_, ?_⟩
  · simp only [extract_conditions, hcm, hcv, hkv2, asList, hcs, hks, exc_bind_ok, exc_pure_eq]
  · intro kv hkv
    simp only [List.mem_cons, List.not_mem_nil, or_false] at hkv
    rcases hkv with rfl | rfl | rfl <;> simp

theorem measuresLoop_ok {l : List JValue} (h : ∀ o ∈ l, outcomeShape o = true) :
    ∃ ms, measuresLoop l = .ok ms ∧ ∀ x ∈ ms, isStrB x = true := by
  induction l with
  | nil => exact ⟨[], rfl, by simp⟩
  | cons o os ih =>
    have ho := h o (List.mem_cons_self o os)
    obtain ⟨ms, hms, hmsS⟩ := ih (fun y hy => h y (List.mem_cons_of_mem _ hy))
    obtain ⟨m, hm, hmS⟩ := jGetD_shape_field (k := "measure")
      (q := isStrB) ho (by simp [outcomeShape]) (d := JValue.str "") rfl
    refine ⟨m :: ms, ?_, ?_⟩
    · simp only [measuresLoop, hm, hms, exc_bind_ok, exc_pure_eq]
    · intro x hx
      rcases List.mem_cons.mp hx with rfl | hx
      · exact hmS
      · exact hmsS x hx

theorem extract_outcomes_ok {ps : JValue} (h : psShape ps = true) :
    ∃ u, extract_outcomes ps = .ok u ∧ ∀ kv ∈ u, kv.1 ≠ "lead_sponsor" := by
  obtain ⟨om, hom, homS⟩ := jGetD_shape_field (k := "outcomesModule")
    (q := outcomesShape) h (by simp [psShape]) (d := JValue.obj []) rfl
  obtain ⟨pv, hpv, hpvS⟩ := jGetD_shape_field (k := "primaryOutcomes")
    (q := listOf outcomeShape) homS (by simp [outcomesShape]) (d := JValue.arr []) rfl
  obtain ⟨pl, rfl, hplS⟩ := listOf_elim hpvS
  obtain ⟨sv, hsv, hsvS⟩ := jGetD_shape_field (k := "secondaryOutcomes")
    (q := listOf outcomeShape) homS (by simp [outcomesShape]) (d := JValue.arr []) rfl
  obtain ⟨sl, rfl, hslS⟩ := listOf_elim hsvS
  obtain ⟨pm, hpm, hpmS⟩ := measuresLoop_ok hplS
  obtain ⟨sme, hsme, hsmeS⟩ := measuresLoop_ok hslS
  obtain ⟨pj, hpj⟩ := pyJoin_ok "; " hpmS
  obtain ⟨sj, hsj⟩ := pyJoin_ok "; " hsmeS
  refine ⟨[("primary_outcomes", .str pj), ("secondary_outcomes", .str sj),
           ("primary_outcome_count", .num pm.length),
           ("secondary_outcome_count", .num sme.length)], ?_, ?_⟩
  · simp only [extract_outcomes, hom, hpv, hsv, asList, hpm, hsme, hpj, hsj,
      exc_bind_ok, exc_pure_eq]
  · intro kv hkv
    simp only [List.mem_cons, List.not_mem_nil, or_false] at hkv
    rcases hkv with rfl | rfl | rfl | rfl <;> simp

theorem extract_design_ok {ps : JValue} (h : psShape ps = true) :
    ∃ u, extract_design ps = .ok u ∧ ∀ kv ∈ u, kv.1 ≠ "lead_sponsor" := by
  obtain ⟨dm, hdm, hdmS⟩ := jGetD_shape_field (k := "designModule")
    (q := designShape) h (by simp [psShape]) (d := JValue.obj []) rfl
  obtain ⟨phv, hphv, hphvS⟩ := jGetD_shape_field (k := "phases")
    (q := listOf isStrB) hdmS (by simp [designShape]) (d := JValue.arr []) rfl
  obtain ⟨phl, rfl, hphlS⟩ := listOf_elim hphvS
  have hst := jGetD_of_shape hdmS "studyType" (.str "")
  obtain ⟨en, hen, henS⟩ := jGetD_shape_field (k := "enrollmentInfo")
    (q := objShape) hdmS (by simp [designShape]) (d := JValue.obj []) rfl
  obtain ⟨di, hdi, hdiS⟩ := jGetD_shape_field (k := "designInfo")
    (q := designInfoShape) hdmS (by simp [designShape]) (d := JValue.obj []) rfl
  have hal := jGetD_of_shape hdiS "allocation" (.str "")
  have him := jGetD_of_shape hdiS "interventionModel" (.str "")
  have hpp := jGetD_of_shape hdiS "primaryPurpose" (.str "")
  obtain ⟨mi, hmi, hmiS⟩ := jGetD_shape_field (k := "maskingInfo")
    (q := objShape) hdiS (by simp [designInfoShape]) (d := JValue.obj []) rfl
  have hma := jGetD_of_shape hmiS "masking" (.str "")
  obtain ⟨phj, hphj⟩ := pyJoin_ok ", " hphlS
  have hcnt := jGetD_of_shape henS "count" (.num 0)
  refine ⟨[("phase", .str phj),
           ("study_type", (dm.getField "studyType").getD (.str "")),
           ("enrollment", (en.getField "count").getD (.num 0)),
           ("allocation", (di.getField "allocation").getD (.str "")),
           ("intervention_model", (di.getField "interventionModel").getD (.str "")),
           ("primary_purpose", (di.getField "primaryPurpose").getD (.str "")),
           ("masking", (mi.getField "masking").getD (.str ""))], ?_, ?_⟩
  · simp only [extract_design, hdm, hphv, hst, hen, hdi, hal, him, hpp, hmi, hma,
      asList, hphj, hcnt, exc_bind_ok, exc_pure_eq]
  · intro kv hkv
    simp only [List.mem_cons, List.not_mem_nil, or_false] at hkv
    rcases hkv with rfl | rfl | rfl | rfl | rfl | rfl | rfl <;> simp

theorem cons_all_str {v : JValue} {L : List JValue}
    (hv : isStrB v = true) (hL : ∀ x ∈ L, isStrB x = true) :
    ∀ x ∈ v :: L, isStrB x = true := by
  intro x hx
  rcases List.mem_cons.mp hx with rfl | hx
  · exact hv
  · exact hL x hx

theorem collabNames_ok {l : List JValue} (h : ∀ c ∈ l, collaboratorShape c = true) :
    ∃ ns, collabNames l = .ok ns ∧ ∀ x ∈ ns, isStrB x = true := by
  induction l with
  | nil => exact ⟨[], rfl, by simp⟩
  | cons c cs ih =>
    have hc := h c (List.mem_cons_self c cs)
    obtain ⟨ns, hns, hnsS⟩ := ih (fun y hy => h y (List.mem_cons_of_mem _ hy))
    have hget := jGet_of_shape hc "name"
    cases hf : c.getField "name" with
    | none =>
      refine ⟨ns, ?_, hnsS⟩
      simp [collabNames, hget, hf, JValue.truthy, hns, exc_bind_ok, exc_pure_eq]
    | some x =>
      have hx : isStrB x = true := by
        have hp := getField_pred_of_shape (k := "name") (q := isStrB) hc
          (by simp [collaboratorShape]) (d := JValue.str "") rfl
        rw [hf] at hp
        simpa using hp
      obtain ⟨s, rfl⟩ := isStrB_elim hx
      have hgd := jGetD_of_shape hc "name" (JValue.str "")
      by_cases ht : s = ""
      · subst ht
        refine ⟨ns, ?_, hnsS⟩
        simp [collabNames, hget, hf, JValue.truthy, hns, exc_bind_ok, exc_pure_eq]
      · refine ⟨JValue.str s :: ns, ?_, cons_all_str rfl hnsS⟩
        simp [collabNames, hget, hf, JValue.truthy, ht, hgd, hns, exc_bind_ok, exc_pure_eq]

theorem officialsLoop_ok {l : List JValue} (h : ∀ o ∈ l, officialShape o = true) :
    ∃ pr, officialsLoop l = .ok pr
      ∧ (∀ x ∈ pr.1, isStrB x = true) ∧ (∀ x ∈ pr.2, isStrB x = true) := by
  induction l with
  | nil => exact ⟨([], []), rfl, by simp, by simp⟩
  | cons o os ih =>
    have ho := h o (List.mem_cons_self o os)
    obtain ⟨pr, hpr, p1, p2⟩ := ih (fun y hy => h y (List.mem_cons_of_mem _ hy))
    have hget := jGet_of_shape ho "role"
    cases hcond : (jvBeqFlat ((o.getField "role").getD JValue.null) (.str "PRINCIPAL_INVESTIGATOR")
        || jvBeqFlat ((o.getField "role").getD JValue.null) (.str "STUDY_DIRECTOR")) with
    | true =>
      obtain ⟨n, hn, hnS⟩ := jGetD_shape_field (k := "name") (q := isStrB) ho
        (by simp [officialShape]) (d := JValue.str "") rfl
      obtain ⟨a, ha, haS⟩ := jGetD_shape_field (k := "affiliation") (q := isStrB) ho
        (by simp [officialShape]) (d := JValue.str "") rfl
      refine ⟨(n :: pr.1, a :: pr.2), ?_, cons_all_str hnS p1, cons_all_str haS p2⟩
      simp only [officialsLoop, hget, exc_bind_ok]
      rw [hcond]
      simp [hn, ha, hpr, exc_bind_ok, exc_pure_eq]
    | false =>
      refine ⟨pr, ?_, p1, p2⟩
      simp only [officialsLoop, hget, exc_bind_ok]
      rw [hcond]
      simp [hpr]

theorem locationsLoop_ok {l : List JValue} (h : ∀ x ∈ l, locationShape x = true) :
    ∃ tr, locationsLoop l = .ok tr ∧ (∀ x ∈ tr.1, isStrB x = true)
      ∧ (∀ x ∈ tr.2.1, isStrB x = true) ∧ (∀ x ∈ tr.2.2, isStrB x = true) := by
  induction l with
  | nil => exact ⟨([], [], []), rfl, by simp, by simp, by simp⟩
  | cons loc rest ih =>
    have hloc := h loc (List.mem_cons_self loc rest)
    obtain ⟨tr, htr, p1, p2, p3⟩ := ih (fun y hy => h y (List.mem_cons_of_mem _ hy))
    have hgf := jGet_of_shape hloc "facility"
    have hgc := jGet_of_shape hloc "city"
    have hgk := jGet_of_shape hloc "country"
    have df := getField_pred_or_default (k := "facility") (q := isStrB) hloc
      (by simp [locationShape]) JValue.null
    have dc := getField_pred_or_default (k := "city") (q := isStrB) hloc
      (by simp [locationShape]) JValue.null
    have dk := getField_pred_or_default (k := "country") (q := isStrB) hloc
      (by simp [locationShape]) JValue.null
    refine ⟨((if ((loc.getField "facility").getD JValue.null).truthy
                then ((loc.getField "facility").getD JValue.null) :: tr.1 else tr.1),
             (if ((loc.getField "city").getD JValue.null).truthy
                then ((loc.getField "city").getD JValue.null) :: tr.2.1 else tr.2.1),
             (if ((loc.getField "country").getD JValue.null).truthy
                then ((loc.getField "country").getD JValue.null) :: tr.2.2 else tr.2.2)),
           ?_, truthy_cons_all_str df p1, truthy_cons_all_str dc p2, truthy_cons_all_str dk p3⟩
    simp only [locationsLoop, hgf, hgc, hgk, htr, exc_bind_ok, exc_pure_eq]

theorem contactsLoop_ok {l : List JValue} (h : ∀ x ∈ l, contactShape x = true) :
    ∃ tr, contactsLoop l = .ok tr ∧ (∀ x ∈ tr.1, isStrB x = true)
      ∧ (∀ x ∈ tr.2.1, isStrB x = true) ∧ (∀ x ∈ tr.2.2, isStrB x = true) := by
  induction l with
  | nil => exact ⟨([], [], []), rfl, by simp, by simp, by simp⟩
  | cons c rest ih =>
    have hc := h c (List.mem_cons_self c rest)
    obtain ⟨tr, htr, p1, p2, p3⟩ := ih (fun y hy => h y (List.mem_cons_of_mem _ hy))
    have hgn := jGet_of_shape hc "name"
    have hge := jGet_of_shape hc "email"
    have hgp := jGet_of_shape hc "phone"
    have dn := getField_pred_or_default (k := "name") (q := isStrB) hc
      (by simp [contactShape]) JValue.null
    have de := getField_pred_or_default (k := "email") (q := isStrB) hc
      (by simp [contactShape]) JValue.null
    have dp := getField_pred_or_default (k := "phone") (q := isStrB) hc
      (by simp [contactShape]) JValue.null
    refine ⟨((if ((c.getField "name").getD JValue.null).truthy
                then ((c.getField "name").getD JValue.null) :: tr.1 else tr.1),
             (if ((c.getField "email").getD JValue.null).truthy
                then ((c.getField "email").getD JValue.null) :: tr.2.1 else tr.2.1),
             (if ((c.getField "phone").getD JValue.null).truthy
                then ((c.getField "phone").getD JValue.null) :: tr.2.2 else tr.2.2)),
           ?_, truthy_cons_all_str dn p1, truthy_cons_all_str de p2, truthy_cons_all_str dp p3⟩
    simp only [contactsLoop, hgn, hge, hgp, htr, exc_bind_ok, exc_pure_eq]

theorem interventionsLoop_ok {l : List JValue} (h : ∀ x ∈ l, interventionShape x = true) :
    ∃ q, interventionsLoop l = .ok q ∧ (∀ x ∈ q.1, isStrB x = true)
      ∧ (∀ x ∈ q.2.1, isStrB x = true) ∧ (∀ x ∈ q.2.2.1, isStrB x = true)
      ∧ (∀ x ∈ q.2.2.2, isStrB x = true) := by
  induction l with
  | nil => exact ⟨([], [], [], []), rfl, by simp, by simp, by simp, by simp⟩
  | cons i rest ih =>
    have hi := h i (List.mem_cons_self i rest)
    obtain ⟨q, hq, a1, a2, a3, a4⟩ := ih (fun y hy => h y (List.mem_cons_of_mem _ hy))
    have ht := jGetD_of_shape hi "type" (JValue.str "")
    obtain ⟨n, hn, hnS⟩ := jGetD_shape_field (k := "name") (q := isStrB) hi
      (by simp [interventionShape]) (d := JValue.str "") rfl
    cases hc1 : jvBeqFlat ((i.getField "type").getD (JValue.str "")) (.str "DRUG") with
    | true =>
      refine ⟨(n :: q.1, q.2.1, q.2.2.1, q.2.2.2), ?_, cons_all_str hnS a1, a2, a3, a4⟩
      simp only [interventionsLoop, ht, hn, hq, exc_bind_ok]
      rw [hc1]
      simp [exc_pure_eq]
    | false =>
      cases hc2 : jvBeqFlat ((i.getField "type").getD (JValue.str "")) (.str "DEVICE") with
      | true =>
        refine ⟨(q.1, n :: q.2.1, q.2.2.1, q.2.2.2), ?_, a1, cons_all_str hnS a2, a3, a4⟩
        simp only [interventionsLoop, ht, hn, hq, exc_bind_ok]
        rw [hc1, hc2]
        simp [exc_pure_eq]
      | false =>
        cases hc3 : (jvBeqFlat ((i.getField "type").getD (JValue.str "")) (.str "PROCEDURE")
            || jvBeqFlat ((i.getField "type").getD (JValue.str "")) (.str "SURGERY")) with
        | true =>
          refine ⟨(q.1, q.2.1, n :: q.2.2.1, q.2.2.2), ?_, a1, a2, cons_all_str hnS a3, a4⟩
          simp only [interventionsLoop, ht, hn, hq, exc_bind_ok]
          rw [hc1, hc2, hc3]
          simp [exc_pure_eq]
        | false =>
          refine ⟨(q.1, q.2.1, q.2.2.1, n :: q.2.2.2), ?_, a1, a2, a3, cons_all_str hnS a4⟩
          simp only [interventionsLoop, ht, hn, hq, exc_bind_ok]
          rw [hc1, hc2, hc3]
          simp [exc_pure_eq]

theorem shapeOf_subset {v : JValue} {L1 L2 : List (String × (JValue → Bool))}
    (h : shapeOf v L1 = true) (hs : ∀ e ∈ L2, e ∈ L1) : shapeOf v L2 = true := by
  cases v with
  | obj kvs =>
    simp only [shapeOf, List.all_eq_true] at h ⊢
    exact fun e he => h e (hs e he)
  | null => simp [shapeOf] at h
  | str s => simp [shapeOf] at h
  | num n => simp [shapeOf] at h
  | arr l => simp [shapeOf] at h

theorem shapeOf_entry_mono {v : JValue} {L : List (String × (JValue → Bool))}
    {k : String} {p q : JValue → Bool}
    (h : shapeOf v L = true) (hmem : (k, p) ∈ L) (himp : ∀ x, p x = true → q x = true) :
    shapeOf v [(k, q)] = true := by
  cases v with
  | obj kvs =>
    simp only [shapeOf, List.all_eq_true] at h ⊢
    intro e he
    simp only [List.mem_cons, List.not_mem_nil, or_false] at he
    subst he
    have hk := h (k, p) hmem
    cases hf : (JValue.obj kvs).getField k with
    | none => simp
    | some x =>
      rw [hf] at hk
      simpa [hf] using himp x hk
  | null => simp [shapeOf] at h
  | str s => simp [shapeOf] at h
  | num n => simp [shapeOf] at h
  | arr l => simp [shapeOf] at h

theorem sponsorsModuleOf_ok {ps : JValue} (h : psShape ps = true) :
    ∃ sm, sponsorsModuleOf ps = .ok sm ∧ sponsorsModShape sm = true := by
  have hget := jGet_of_shape h "sponsorsCollaboratorsModule"
  cases hf : ps.getField "sponsorsCollaboratorsModule" with
  | none =>
    obtain ⟨sm, hsm, hS⟩ := jGetD_shape_field (k := "sponsorCollaboratorsModule")
      (q := sponsorsModShape) h (by simp [psShape]) (d := JValue.obj []) rfl
    refine ⟨sm, ?_, hS⟩
    simp [sponsorsModuleOf, hget, hf, JValue.truthy, hsm, exc_bind_ok]
  | some m =>
    have hm : sponsorsModShape m = true := by
      have hp := getField_pred_of_shape (k := "sponsorsCollaboratorsModule")
        (q := sponsorsModShape) h (by simp [psShape]) (d := JValue.obj []) rfl
      rw [hf] at hp
      simpa using hp
    by_cases ht : m.truthy = true
    · refine ⟨m, ?_, hm⟩
      simp [sponsorsModuleOf, hget, hf, ht, exc_bind_ok, exc_pure_eq]
    · obtain ⟨sm, hsm, hS⟩ := jGetD_shape_field (k := "sponsorCollaboratorsModule")
        (q := sponsorsModShape) h (by simp [psShape]) (d := JValue.obj []) rfl
      refine ⟨sm, ?_, hS⟩
      simp [sponsorsModuleOf, hget, hf, ht, hsm, exc_bind_ok]

theorem extract_sponsors_ok {ps : JValue} (h : psShape ps = true) :
    ∃ s u, extract_sponsors ps = .ok (("lead_sponsor", JValue.str s) :: u)
      ∧ ∀ kv ∈ u, kv.1 ≠ "lead_sponsor" := by
  obtain ⟨sm, hsmEq, hsmS⟩ := sponsorsModuleOf_ok h
  obtain ⟨ls1, hls1, hls1S⟩ := jGetD_shape_field (k := "leadSponsor")
    (q := leadSponsorShape) hsmS (by simp [sponsorsModShape]) (d := JValue.obj []) rfl
  obtain ⟨nv, hnv, hnvS⟩ := jGetD_shape_field (k := "name")
    (q := isStrB) hls1S (by simp [leadSponsorShape]) (d := JValue.str "") rfl
  obtain ⟨s, rfl⟩ := isStrB_elim hnvS
  have hcls := jGetD_of_shape hls1S "class" (JValue.str "")
  obtain ⟨cv, hcv, hcvS⟩ := jGetD_shape_field (k := "collaborators")
    (q := listOf collaboratorShape) hsmS (by simp [sponsorsModShape]) (d := JValue.arr []) rfl
  obtain ⟨cl, rfl, hclS⟩ := listOf_elim hcvS
  obtain ⟨ns, hns, hnsS⟩ := collabNames_ok hclS
  obtain ⟨cj, hcj⟩ := pyJoin_ok "; " hnsS
  refine ⟨s, [("lead_sponsor_class", (ls1.getField "class").getD (.str "")),
              ("lead_sponsor_type", .str (get_organization_type s)),
              ("collaborators", .str cj),
              ("collaborator_count", .num ns.length)], ?_, ?_⟩
  · simp only [extract_sponsors, hsmEq, exc_bind_ok, hls1, hnv, hcls, hcv,
      asList, hns, get_organization_type_py, hcj, exc_pure_eq]
  · intro kv hkv
    simp only [List.mem_cons, List.not_mem_nil, or_false] at hkv
    rcases hkv with rfl | rfl | rfl | rfl <;> simp

theorem extract_investigators_ok {ps : JValue} (h : psShape ps = true) :
    ∃ u, extract_investigators ps = .ok u ∧ ∀ kv ∈ u, kv.1 ≠ "lead_sponsor" := by
  obtain ⟨cm, hcm, hcmS⟩ := jGetD_shape_field (k := "contactsLocationsModule")
    (q := contactsLocShape) h (by simp [psShape]) (d := JValue.obj []) rfl
  obtain ⟨ov, hov, hovS⟩ := jGetD_shape_field (k := "overallOfficials")
    (q := listOf officialShape) hcmS (by simp [contactsLocShape]) (d := JValue.arr []) rfl
  obtain ⟨ol, rfl, holS⟩ := listOf_elim hovS
  obtain ⟨pr, hpr, p1, p2⟩ := officialsLoop_ok holS
  obtain ⟨nj, hnj⟩ := pyJoin_ok "; " p1
  obtain ⟨aj, haj⟩ := pyJoin_ok "; " p2
  refine ⟨[("principal_investigators", .str nj), ("pi_affiliations", .str aj),
           ("pi_count", .num pr.1.length)], ?_, ?_⟩
  · simp only [extract_investigators, hcm, hov, asList, hpr, hnj, haj,
      exc_bind_ok, exc_pure_eq]
  · intro kv hkv
    simp only [List.mem_cons, List.not_mem_nil, or_false] at hkv
    rcases hkv with rfl | rfl | rfl <;> simp

theorem extract_interventions_ok {ps : JValue} (h : psShape ps = true) :
    ∃ u, extract_interventions ps = .ok u ∧ ∀ kv ∈ u, kv.1 ≠ "lead_sponsor" := by
  obtain ⟨am, ham, hamS⟩ := jGetD_shape_field (k := "armsInterventionsModule")
    (q := armsShape) h (by simp [psShape]) (d := JValue.obj []) rfl
  obtain ⟨iv, hiv, hivS⟩ := jGetD_shape_field (k := "interventions")
    (q := listOf interventionShape) hamS (by simp [armsShape]) (d := JValue.arr []) rfl
  obtain ⟨il, rfl, hilS⟩ := listOf_elim hivS
  obtain ⟨q, hq, a1, a2, a3, a4⟩ := interventionsLoop_ok hilS
  obtain ⟨dj, hdj⟩ := pyJoin_ok "; " a1
  obtain ⟨vj, hvj⟩ := pyJoin_ok "; " a2
  obtain ⟨pj, hpj⟩ := pyJoin_ok "; " a3
  obtain ⟨oj, hoj⟩ := pyJoin_ok "; " a4
  refine ⟨[("drugs", .str dj), ("devices", .str vj), ("procedures", .str pj),
           ("other_interventions", .str oj), ("intervention_count", .num il.length)], ?_, ?_⟩
  · simp only [extract_interventions, ham, hiv, asList, hq, hdj, hvj, hpj, hoj,
      exc_bind_ok, exc_pure_eq]
  · intro kv hkv
    simp only [List.mem_cons, List.not_mem_nil, or_false] at hkv
    rcases hkv with rfl | rfl | rfl | rfl | rfl <;> simp

theorem extract_contacts_ok {ps : JValue} (h : psShape ps = true) :
    ∃ u, extract_contacts ps = .ok u ∧ ∀ kv ∈ u, kv.1 ≠ "lead_sponsor" := by
  obtain ⟨cm, hcm, hcmS⟩ := jGetD_shape_field (k := "contactsLocationsModule")
    (q := contactsLocShape) h (by simp [psShape]) (d := JValue.obj []) rfl
  obtain ⟨ccv, hccv, hccvS⟩ := jGetD_shape_field (k := "centralContacts")
    (q := listOf contactShape) hcmS (by simp [contactsLocShape]) (d := JValue.arr []) rfl
  obtain ⟨ccl, rfl, hcclS⟩ := listOf_elim hccvS
  obtain ⟨tr, htr, p1, p2, p3⟩ := contactsLoop_ok hcclS
  obtain ⟨nj, hnj⟩ := pyJoin_ok "; " p1
  obtain ⟨ej, hej⟩ := pyJoin_ok "; " p2
  obtain ⟨pj, hpj⟩ := pyJoin_ok "; " p3
  refine ⟨[("contact_name", .str nj), ("contact_email", .str ej),
           ("contact_phone", .str pj)], ?_, ?_⟩
  · simp only [extract_contacts, hcm, hccv, asList, htr, hnj, hej, hpj,
      exc_bind_ok, exc_pure_eq]
  · intro kv hkv
    simp only [List.mem_cons, List.not_mem_nil, or_false] at hkv
    rcases hkv with rfl | rfl | rfl <;> simp

theorem jvMemFlat_map_str (x : String) (m : List String) :
    jvMemFlat (.str x) (m.map JValue.str) = decide (x ∈ m) := by
  induction m with
  | nil => rfl
  | cons y ys ih =>
    by_cases hxy : x = y <;>
      simp [jvMemFlat, jvBeqFlat, ih, List.mem_cons, hxy]

theorem jvDedup_map_str (l : List String) :
    jvDedup (l.map JValue.str) = (l.dedup).map JValue.str := by
  induction l with
  | nil => rfl
  | cons x xs ih =>
    simp only [List.map_cons, jvDedup, ih, jvMemFlat_map_str]
    by_cases hm : x ∈ xs.dedup
    · simp [hm, List.dedup_cons_of_mem (List.mem_dedup.mp hm)]
    · have hx : x ∉ xs := fun hx => hm (List.mem_dedup.mpr hx)
      simp [hm, List.dedup_cons_of_not_mem hx]

theorem asStrList_map_str (l : List String) :
    asStrList (l.map JValue.str) = .ok l := by
  induction l with
  | nil => rfl
  | cons x xs ih => simp [asStrList, ih, Except.map]

theorem pySet_map_str (l : List String) :
    pySet (l.map JValue.str) = .ok ((l.dedup).map JValue.str) := by
  have h1 : (l.map JValue.str).all jvHashable = true := by
    simp [List.all_map, Function.comp, jvHashable]
  simp [pySet, h1, jvDedup_map_str]

theorem pyJoin_map_str (sep : String) (l : List String) :
    pyJoin sep (l.map JValue.str) = .ok (.str (String.intercalate sep l)) := by
  simp [pyJoin, asStrList_map_str, Except.map]

theorem channel_eq {field : String} {loc : JValue} {rest : List JValue}
    (hstr : isStrB ((loc.getField field).getD JValue.null) = true
      ∨ (loc.getField field).getD JValue.null = JValue.null) :
    (if ((loc.getField field).getD JValue.null).truthy
       then ((loc.getField field).getD JValue.null) :: (collectedLocField field rest).map JValue.str
       else (collectedLocField field rest).map JValue.str)
      = (collectedLocField field (loc :: rest)).map JValue.str := by
  cases hf : loc.getField field with
  | none =>
    simp [collectedLocField, List.filterMap_cons, hf, JValue.truthy]
  | some x =>
    rcases hstr with hx | hnull
    · rw [hf] at hx
      simp only [Option.getD_some] at hx
      obtain ⟨s, rfl⟩ := isStrB_elim hx
      by_cases hs : s = ""
      · subst hs
        simp [collectedLocField, List.filterMap_cons, hf, JValue.truthy]
      · simp [collectedLocField, List.filterMap_cons, hf, JValue.truthy, hs]
    · rw [hf] at hnull
      simp only [Option.getD_some] at hnull
      subst hnull
      simp [collectedLocField, List.filterMap_cons, hf, JValue.truthy]

theorem locationsLoop_channels {l : List JValue} (h : ∀ x ∈ l, locationShape x = true) :
    locationsLoop l = .ok ((collectedLocField "facility" l).map JValue.str,
      (collectedLocField "city" l).map JValue.str,
      (collectedLocField "country" l).map JValue.str) := by
  induction l with
  | nil => rfl
  | cons loc rest ih =>
    have hloc := h loc (List.mem_cons_self loc rest)
    have hrest := ih (fun y hy => h y (List.mem_cons_of_mem _ hy))
    have hgf := jGet_of_shape hloc "facility"
    have hgc := jGet_of_shape hloc "city"
    have hgk := jGet_of_shape hloc "country"
    have df := getField_pred_or_default (k := "facility") (q := isStrB) hloc
      (by simp [locationShape]) JValue.null
    have dc := getField_pred_or_default (k := "city") (q := isStrB) hloc
      (by simp [locationShape]) JValue.null
    have dk := getField_pred_or_default (k := "country") (q := isStrB) hloc
      (by simp [locationShape]) JValue.null
    simp only [locationsLoop, hgf, hgc, hgk, hrest, exc_bind_ok, exc_pure_eq]
    rw [channel_eq df, channel_eq dc, channel_eq dk]

/-- The locations extractor fully characterized on a well-shaped section:
each joined field is the deduplicated collected string list, and the count
is the raw location entry count. -/
theorem extract_locations_spec {ps : JValue} (h : locReadyShape ps = true) :
    extract_locations ps = .ok
      [("facilities", .str (String.intercalate "; "
          (collectedLocField "facility" (rawLocations ps)).dedup)),
       ("cities", .str (String.intercalate "; "
          (collectedLocField "city" (rawLocations ps)).dedup)),
       ("countries", .str (String.intercalate "; "
          (collectedLocField "country" (rawLocations ps)).dedup)),
       ("location_count", .num (rawLocations ps).length)] := by
  have hcm := jGetD_of_shape h "contactsLocationsModule" (JValue.obj [])
  have hcmS : locOnlyShape ((ps.getField "contactsLocationsModule").getD (JValue.obj [])) = true :=
    getField_pred_of_shape (k := "contactsLocationsModule") (q := locOnlyShape) h
      (by simp [locReadyShape]) (d := JValue.obj []) rfl
  have hlv := jGetD_of_shape hcmS "locations" (JValue.arr [])
  have hlvS := getField_pred_of_shape (k := "locations") (q := listOf locationShape) hcmS
    (by simp [locOnlyShape]) (d := JValue.arr []) rfl
  cases hf : ((ps.getField "contactsLocationsModule").getD (JValue.obj [])).getField "locations" with
  | none =>
    have hraw : rawLocations ps = [] := by
      simp [rawLocations, hf]
    rw [hf] at hlv
    simp only [extract_locations, hcm, hlv, Option.getD_none, asList, exc_bind_ok,
      hraw, exc_pure_eq]
    simp [locationsLoop, pySet, jvDedup, pyJoin, asStrList, collectedLocField,
      exc_bind_ok, exc_pure_eq, Except.map]
  | some x =>
    rw [hf] at hlvS
    simp only [Option.getD_some] at hlvS
    obtain ⟨ll, rfl, hllS⟩ := listOf_elim hlvS
    have hraw : rawLocations ps = ll := by
      simp [rawLocations, hf]
    rw [hf] at hlv
    have hchan := locationsLoop_channels hllS
    simp only [extract_locations, hcm, hlv, Option.getD_some, asList, exc_bind_ok,
      hchan, pySet_map_str, pyJoin_map_str, exc_pure_eq, hraw]

theorem extract_locations_ok {ps : JValue} (h : psShape ps = true) :
    ∃ u, extract_locations ps = .ok u ∧ ∀ kv ∈ u, kv.1 ≠ "lead_sponsor" := by
  have h2 : locReadyShape ps = true := by
    refine shapeOf_entry_mono (k := "contactsLocationsModule") (p := contactsLocShape)
      (q := locOnlyShape) h (by simp [psShape]) ?_
    intro x hx
    refine shapeOf_subset hx ?_
    intro e he
    simp only [List.mem_cons, List.not_mem_nil, or_false] at he
    subst he
    simp [contactsLocShape]
  refine ⟨_, extract_locations_spec h2, ?_⟩
  intro kv hkv
  simp only [List.mem_cons, List.not_mem_nil, or_false] at hkv
  rcases hkv with rfl | rfl | rfl | rfl <;> simp

theorem find?_map_set_self {r : Record} {k : String} {v : JValue}
    (hmem : r.any (fun kv => kv.1 == k) = true) :
    (r.map (fun kv => if kv.1 == k then (k, v) else kv)).find? (fun kv => kv.1 == k)
      = some (k, v) := by
  induction r with
  | nil => simp at hmem
  | cons kv0 rest ih =>
    rw [List.map_cons]
    by_cases h0 : kv0.1 = k
    · have he : ((if kv0.1 == k then (k, v) else kv0) : String × JValue) = (k, v) := by
        simp [h0]
      rw [he, List.find?_cons_of_pos (p := fun (kv : String × JValue) => kv.1 == k) _ (by simp)]
    · have hmem2 : rest.any (fun kv => kv.1 == k) = true := by
        simpa [List.any_cons, h0] using hmem
      have he : ((if kv0.1 == k then (k, v) else kv0) : String × JValue) = kv0 := by
        simp [h0]
      rw [he, List.find?_cons_of_neg (p := fun (kv : String × JValue) => kv.1 == k) _ (by simp [h0]), ih hmem2]

theorem find?_map_set_ne {r : Record} {k k2 : String} {v : JValue} (h : k2 ≠ k) :
    (r.map (fun kv => if kv.1 == k then (k, v) else kv)).find? (fun kv => kv.1 == k2)
      = r.find? (fun kv => kv.1 == k2) := by
  induction r with
  | nil => rfl
  | cons kv0 rest ih =>
    rw [List.map_cons]
    by_cases h0 : kv0.1 = k
    · have he : ((if kv0.1 == k then (k, v) else kv0) : String × JValue) = (k, v) := by
        simp [h0]
      have hpk : ¬ ((fun (kv : String × JValue) => kv.1 == k2) (k, v) = true) := by
        simp
        exact fun e => h (Eq.symm e)
      have hpk0 : ¬ ((fun (kv : String × JValue) => kv.1 == k2) kv0 = true) := by
        simp [h0]
        exact fun e => h (Eq.symm e)
      rw [he, List.find?_cons_of_neg (p := fun (kv : String × JValue) => kv.1 == k2) _ hpk,
        List.find?_cons_of_neg (p := fun (kv : String × JValue) => kv.1 == k2) _ hpk0, ih]
    · have he : ((if kv0.1 == k then (k, v) else kv0) : String × JValue) = kv0 := by
        simp [h0]
      rw [he]
      cases hp : ((fun (kv : String × JValue) => kv.1 == k2) kv0) with
      | true =>
        rw [List.find?_cons_of_pos (p := fun (kv : String × JValue) => kv.1 == k2) _ hp,
          List.find?_cons_of_pos (p := fun (kv : String × JValue) => kv.1 == k2) _ hp]
      | false =>
        rw [List.find?_cons_of_neg (p := fun (kv : String × JValue) => kv.1 == k2) _ (by simp [hp]),
          List.find?_cons_of_neg (p := fun (kv : String × JValue) => kv.1 == k2) _ (by simp [hp]), ih]

theorem rlookup_rsetOne_self (r : Record) (k : String) (v : JValue) :
    rlookup (rsetOne r k v) k = some v := by
  rw [rsetOne]
  by_cases hmem : r.any (fun kv => kv.1 == k) = true
  · rw [if_pos hmem, rlookup, find?_map_set_self hmem]
    rfl
  · rw [if_neg hmem, rlookup]
    have hnone : r.find? (fun kv => kv.1 == k) = none := by
      rw [List.find?_eq_none]
      intro kv hkv hbeq
      exact hmem (List.any_eq_true.mpr ⟨kv, hkv, hbeq⟩)
    rw [List.find?_append, hnone]
    simp [List.find?]

theorem rlookup_rsetOne_ne {k k2 : String} (h : k2 ≠ k) (r : Record) (v : JValue) :
    rlookup (rsetOne r k v) k2 = rlookup r k2 := by
  rw [rsetOne]
  by_cases hmem : r.any (fun kv => kv.1 == k) = true
  · rw [if_pos hmem, rlookup, find?_map_set_ne h]
    rfl
  · rw [if_neg hmem, rlookup, rlookup, List.find?_append]
    have hone : ([(k, v)] : Record).find? (fun kv => kv.1 == k2) = none := by
      have hpk : ¬ ((fun (kv : String × JValue) => kv.1 == k2) (k, v) = true) := by
        simp
        exact fun e => h (Eq.symm e)
      rw [List.find?_cons_of_neg (p := fun (kv : String × JValue) => kv.1 == k2) _ hpk]
      rfl
    rw [hone]
    cases r.find? (fun kv => kv.1 == k2) <;> rfl

theorem rlookup_rupdate_ne {u : Record} {k : String}
    (r : Record) (h : ∀ kv ∈ u, kv.1 ≠ k) : rlookup (rupdate r u) k = rlookup r k := by
  induction u generalizing r with
  | nil => rfl
  | cons kv0 rest ih =>
    have h0 : kv0.1 ≠ k := h kv0 (List.mem_cons_self kv0 rest)
    have hrest : ∀ kv ∈ rest, kv.1 ≠ k := fun kv hkv => h kv (List.mem_cons_of_mem _ hkv)
    have hstep : rupdate r (kv0 :: rest) = rupdate (rsetOne r kv0.1 kv0.2) rest := rfl
    rw [hstep, ih _ hrest, rlookup_rsetOne_ne (fun e => h0 e.symm)]

theorem rlookup_rupdate_sponsors {e0 : Record} {s : String} {u : Record}
    (hk : ∀ kv ∈ u, kv.1 ≠ "lead_sponsor") :
    rlookup (rupdate e0 (("lead_sponsor", JValue.str s) :: u)) "lead_sponsor"
      = some (JValue.str s) := by
  have hstep : rupdate e0 (("lead_sponsor", JValue.str s) :: u)
      = rupdate (rsetOne e0 "lead_sponsor" (JValue.str s)) u := rfl
  rw [hstep, rlookup_rupdate_ne _ hk, rlookup_rsetOne_self]

theorem apply_extractor_ok (p : Prospector) (ps : JValue) (key : String)
    (ex : JValue → Except PyErr Record) (e : Record)
    (hex : p.extraction_options.contains key = true →
      ∃ u, ex ps = .ok u ∧ ∀ kv ∈ u, kv.1 ≠ "lead_sponsor") :
    ∃ e2, apply_extractor p ps key ex e = .ok e2
      ∧ rlookup e2 "lead_sponsor" = rlookup e "lead_sponsor" := by
  by_cases hb : p.extraction_options.contains key = true
  · obtain ⟨u, hu, hk⟩ := hex hb
    refine ⟨rupdate e u, ?_, rlookup_rupdate_ne e hk⟩
    rw [apply_extractor, if_pos hb, hu, exc_bind_ok, exc_pure_eq]
  · refine ⟨e, ?_, rfl⟩
    rw [apply_extractor, if_neg hb, exc_pure_eq]

theorem extract_rest_ok {ps : JValue} (h : psShape ps = true) (p : Prospector) (nct : JValue) :
    ∃ r, extract_rest p ps nct = .ok r := by
  obtain ⟨idm, hidm, hidmS⟩ := jGetD_shape_field (k := "identificationModule")
    (q := objShape) h (by simp [psShape]) (d := JValue.obj []) rfl
  have htitle := jGetD_of_shape hidmS "briefTitle" (JValue.str "")
  obtain ⟨stm, hstm, hstmS⟩ := jGetD_shape_field (k := "statusModule")
    (q := statusModShape) h (by simp [psShape]) (d := JValue.obj []) rfl
  have hstatus := jGetD_of_shape hstmS "overallStatus" (JValue.str "")
  obtain ⟨e1, he1, hl1⟩ :
      ∃ e1, apply_extractor p ps "sponsors" extract_sponsors
          [("nct_id", nct), ("title", (idm.getField "briefTitle").getD (JValue.str "")),
           ("status", (stm.getField "overallStatus").getD (JValue.str ""))] = .ok e1
        ∧ (p.extraction_options.contains "sponsors" = true →
            ∃ s, rlookup e1 "lead_sponsor" = some (JValue.str s)) := by
    by_cases hsp : p.extraction_options.contains "sponsors" = true
    · obtain ⟨s, u, hspc, hspk⟩ := extract_sponsors_ok h
      refine ⟨rupdate [("nct_id", nct),
          ("title", (idm.getField "briefTitle").getD (JValue.str "")),
          ("status", (stm.getField "overallStatus").getD (JValue.str ""))]
          (("lead_sponsor", JValue.str s) :: u), ?_,
        fun _ => ⟨s, rlookup_rupdate_sponsors hspk⟩⟩
      rw [apply_extractor, if_pos hsp, hspc, exc_bind_ok, exc_pure_eq]
    · refine ⟨[("nct_id", nct),
          ("title", (idm.getField "briefTitle").getD (JValue.str "")),
          ("status", (stm.getField "overallStatus").getD (JValue.str ""))], ?_,
        fun hc => absurd hc hsp⟩
      rw [apply_extractor, if_neg hsp, exc_pure_eq]
  obtain ⟨e2, he2, hp2⟩ := apply_extractor_ok p ps "investigators"
    extract_investigators e1 (fun _ => extract_investigators_ok h)
  obtain ⟨e3, he3, hp3⟩ := apply_extractor_ok p ps "locations"
    extract_locations e2 (fun _ => extract_locations_ok h)
  obtain ⟨e4, he4, hp4⟩ := apply_extractor_ok p ps "interventions"
    extract_interventions e3 (fun _ => extract_interventions_ok h)
  obtain ⟨e5, he5, hp5⟩ := apply_extractor_ok p ps "conditions"
    extract_conditions e4 (fun _ => extract_conditions_ok h)
  obtain ⟨e6, he6, hp6⟩ := apply_extractor_ok p ps "outcomes"
    extract_outcomes e5 (fun _ => extract_outcomes_ok h)
  obtain ⟨e7, he7, hp7⟩ := apply_extractor_ok p ps "design"
    extract_design e6 (fun _ => extract_design_ok h)
  obtain ⟨e8, he8, hp8⟩ := apply_extractor_ok p ps "eligibility"
    extract_eligibility e7 (fun _ => extract_eligibility_ok h)
  obtain ⟨e9, he9, hp9⟩ := apply_extractor_ok p ps "contacts"
    extract_contacts e8 (fun _ => extract_contacts_ok h)
  obtain ⟨e10, he10, hp10⟩ := apply_extractor_ok p ps "timeline"
    extract_timeline e9 (fun _ => extract_timeline_ok h)
  have hl10 : p.extraction_options.contains "sponsors" = true →
      ∃ s, rlookup e10 "lead_sponsor" = some (JValue.str s) := by
    intro hc
    obtain ⟨s, hs⟩ := hl1 hc
    exact ⟨s, by rw [hp10, hp9, hp8, hp7, hp6, hp5, hp4, hp3, hp2, hs]⟩
  by_cases hsp : p.extraction_options.contains "sponsors" = true
  · obtain ⟨s, hls⟩ := hl10 hsp
    refine ⟨if (!(s == "") && should_include_organization p s) then some e10 else none, ?_⟩
    simp only [extract_rest, hidm, htitle, hstm, hstatus, he1, he2, he3, he4, he5,
      he6, he7, he8, he9, he10, exc_bind_ok, hsp, if_true, hls, Option.getD_some,
      lead_filter_check, exc_pure_eq]
  · refine ⟨some e10, ?_⟩
    simp only [extract_rest, hidm, htitle, hstm, hstatus, he1, he2, he3, he4, he5,
      he6, he7, he8, he9, he10, exc_bind_ok, exc_pure_eq]
    rw [if_neg hsp]

theorem bind_nct_ok {study : JValue} (h : wellShaped study = true) :
    ∃ ps nct, bind_nct study = .ok (ps, nct) ∧ psShape ps = true := by
  obtain ⟨ps, hps, hpsS⟩ := jGetD_shape_field (k := "protocolSection")
    (q := psShape) h (by simp [wellShaped]) (d := JValue.obj []) rfl
  obtain ⟨idm, hidm, hidmS⟩ := jGetD_shape_field (k := "identificationModule")
    (q := objShape) hpsS (by simp [psShape]) (d := JValue.obj []) rfl
  have hn := jGetD_of_shape hidmS "nctId" (JValue.str "")
  refine ⟨ps, (idm.getField "nctId").getD (JValue.str ""), ?_, hpsS⟩
  simp only [bind_nct, hps, hidm, hn, exc_bind_ok, exc_pure_eq]

theorem extract_loop_wellShaped_ok (p : Prospector) :
    ∀ (trials : List JValue) (nctVar : Option JValue),
      (∀ t ∈ trials, wellShaped t = true) →
      ∃ out, extract_loop p trials nctVar = .ok out := by
  intro trials
  induction trials with
  | nil =>
    intro nctVar _
    exact ⟨[], rfl⟩
  | cons study rest ih =>
    intro nctVar hall
    obtain ⟨ps, nct, hb, hpsS⟩ := bind_nct_ok (hall study (List.mem_cons_self study rest))
    obtain ⟨r, hr⟩ := extract_rest_ok hpsS p nct
    obtain ⟨out, hout⟩ := ih (some nct) (fun t ht => hall t (List.mem_cons_of_mem _ ht))
    cases r with
    | none =>
      refine ⟨out, ?_⟩
      simp only [extract_loop, hb, hr, hout]
    | some rec =>
      refine ⟨rec :: out, ?_⟩
      simp only [extract_loop, hb, hr, hout, Except.map]

set_option maxRecDepth 4000 in
/-- C6: on every list of trials in which every accessed path is either
absent or well-typed, extract_data and every selected extractor resolve
missing paths to defaults and never raise, for every choice of filters and
extraction options; and the empty document, which passes filtering when
the sponsors extractor is not selected, yields the record of empty base
and default fields. -/
theorem claim6_missing_paths_never_raise :
    (∀ (p : Prospector) (trials : List JValue),
      (∀ t ∈ trials, wellShaped t = true) → ∃ out, extract_data p trials = .ok out)
    ∧ extract_data pTimelineOnly [JValue.obj []] = .ok [emptyDocRecord] := by
  refine ⟨?_, rfl⟩
  intro p trials hall
  exact extract_loop_wellShaped_ok p trials none hall

/-- C6 witness: the no-raise theorem applied at a concrete well-shaped
trial. -/
theorem claim6_witness :
    wellShaped goodTrial = true
    ∧ ∃ out, extract_data pDefault [goodTrial] = .ok out := by
  refine ⟨rfl, ?_⟩
  exact claim6_missing_paths_never_raise.1 pDefault [goodTrial]
    (by
      intro t ht
      rw [List.mem_singleton] at ht
      subst ht
      rfl)

/-- C8: on every trial whose location entries are well-shaped (any field
may be absent), the locations extractor joins deduplicated facility, city
and country strings (set semantics), while location_count is the raw,
non-deduplicated number of location entries, counting entries that lack
any of the fields. -/
theorem claim8_locations_set_semantics (ps : JValue) (h : locReadyShape ps = true) :
    ∃ fs cs ks : List String,
      extract_locations ps = .ok
        [("facilities", .str (String.intercalate "; " fs)),
         ("cities", .str (String.intercalate "; " cs)),
         ("countries", .str (String.intercalate "; " ks)),
         ("location_count", .num (rawLocations ps).length)]
      ∧ fs.Nodup ∧ (∀ x, x ∈ fs ↔ x ∈ collectedLocField "facility" (rawLocations ps))
      ∧ cs.Nodup ∧ (∀ x, x ∈ cs ↔ x ∈ collectedLocField "city" (rawLocations ps))
      ∧ ks.Nodup ∧ (∀ x, x ∈ ks ↔ x ∈ collectedLocField "country" (rawLocations ps)) := by
  refine ⟨(collectedLocField "facility" (rawLocations ps)).dedup,
          (collectedLocField "city" (rawLocations ps)).dedup,
          (collectedLocField "country" (rawLocations ps)).dedup,
          extract_locations_spec h,
          List.nodup_dedup _, fun x => List.mem_dedup,
          List.nodup_dedup _, fun x => List.mem_dedup,
          List.nodup_dedup _, fun x => List.mem_dedup⟩

/-- C8 witness: the locations theorem applied at a concrete section. -/
theorem claim8_witness :
    locReadyShape locationsDemoSection = true
    ∧ ∃ fs cs ks : List String,
      extract_locations locationsDemoSection = .ok
        [("facilities", .str (String.intercalate "; " fs)),
         ("cities", .str (String.intercalate "; " cs)),
         ("countries", .str (String.intercalate "; " ks)),
         ("location_count", .num (rawLocations locationsDemoSection).length)]
      ∧ fs.Nodup
      ∧ (∀ x, x ∈ fs ↔ x ∈ collectedLocField "facility" (rawLocations locationsDemoSection))
      ∧ cs.Nodup
      ∧ (∀ x, x ∈ cs ↔ x ∈ collectedLocField "city" (rawLocations locationsDemoSection))
      ∧ ks.Nodup
      ∧ (∀ x, x ∈ ks ↔ x ∈ collectedLocField "country" (rawLocations locationsDemoSection)) :=
  ⟨rfl, claim8_locations_set_semantics locationsDemoSection rfl⟩

theorem fetch_go_iters_le_fuel {α : Type} (src : FetchSource α) (m : Nat) :
    ∀ (fuel : Nat) (acc : List α) (token : Option Nat),
      (fetch_go src m fuel acc token).iters ≤ fuel := by
  intro fuel
  induction fuel with
  | zero =>
    intro acc token
    simp [fetch_go]
  | succ n ih =>
    intro acc token
    simp only [fetch_go]
    split
    · split
      · simp
      · split
        · simp
        · split
          · simp
          · simpa using Nat.succ_le_succ (ih _ _)
    · simp

theorem fetch_go_requests {α : Type} (src : FetchSource α) (m : Nat) :
    ∀ (fuel : Nat) (acc : List α) (token : Option Nat),
      (fetch_go src m fuel acc token).accBefore.length
          = (fetch_go src m fuel acc token).requests.length
      ∧ ∀ pr ∈ (fetch_go src m fuel acc token).accBefore.zip
          (fetch_go src m fuel acc token).requests,
          pr.2 = min 100 (m - pr.1) := by
  intro fuel
  induction fuel with
  | zero =>
    intro acc token
    simp [fetch_go]
  | succ n ih =>
    intro acc token
    simp only [fetch_go]
    split
    · split
      · simp
      · split
        · simp
        · split
          · simp
          · refine ⟨by simpa using (ih _ _).1, ?_⟩
            intro pr hpr
            simp only [List.zip_cons_cons, List.mem_cons] at hpr
            rcases hpr with rfl | hpr
            · rfl
            · exact (ih _ _).2 pr hpr
    · simp

theorem fetch_go_length_le {α : Type} {src : FetchSource α} {m : Nat}
    (hsrc : ∀ sz tok page, src sz tok = some page → page.studies.length ≤ sz) :
    ∀ (fuel : Nat) (acc : List α) (token : Option Nat),
      acc.length ≤ m → (fetch_go src m fuel acc token).result.length ≤ m := by
  intro fuel
  induction fuel with
  | zero =>
    intro acc token hacc
    simpa [fetch_go] using hacc
  | succ n ih =>
    intro acc token hacc
    simp only [fetch_go]
    by_cases hlt : acc.length < m
    · rw [if_pos hlt]
      cases hs : src (min 100 (m - acc.length)) token with
      | none => simpa using hacc
      | some page =>
        dsimp only
        have hlen := hsrc _ _ _ hs
        by_cases hemp : page.studies.isEmpty = true
        · rw [if_pos hemp]
          simpa using hacc
        · rw [if_neg hemp]
          cases ht : page.nextPageToken with
          | none =>
            simp only [List.length_append]
            omega
          | some t =>
            refine ih _ _ ?_
            simp only [List.length_append]
            omega
    · rw [if_neg hlt]
      simpa using hacc

theorem fetch_go_iters_ceil {α : Type} {src : FetchSource α} {m : Nat}
    (hfull : ∀ sz tok page, src sz tok = some page → page.studies.length = sz) :
    ∀ (fuel : Nat) (acc : List α) (token : Option Nat),
      m ≤ fuel + acc.length →
      (fetch_go src m fuel acc token).iters ≤ (m - acc.length + 99) / 100 := by
  intro fuel
  induction fuel with
  | zero =>
    intro acc token hinv
    simp [fetch_go]
  | succ n ih =>
    intro acc token hinv
    simp only [fetch_go]
    by_cases hlt : acc.length < m
    · rw [if_pos hlt]
      have hr1 : 1 ≤ (m - acc.length + 99) / 100 := by omega
      cases hs : src (min 100 (m - acc.length)) token with
      | none => simpa using hr1
      | some page =>
        dsimp only
        have hlen := hfull _ _ _ hs
        have hne : ¬ (page.studies.isEmpty = true) := by
          cases hps : page.studies with
          | nil =>
            rw [hps] at hlen
            simp at hlen
            omega
          | cons a l => simp [hps]
        rw [if_neg hne]
        cases ht : page.nextPageToken with
        | none => simpa using hr1
        | some t =>
          have hchild := ih (acc ++ page.studies) (some t)
            (by simp only [List.length_append, hlen]; omega)
          simp only [List.length_append, hlen] at hchild
          simp only []
          omega
    · rw [if_neg hlt]
      simp only []
      omega

/-- C3 counterexample: with max_results 2, a paginated source returning
one-record pages with continuation tokens drives the loop through 2
iterations, exceeding ceil(max_results / page_size) = ceil(2 / 100) = 1,
so the claimed iteration bound fails for this source. -/
theorem claim3_counterexample :
    (fetch_trials srcOnes 2).iters = 2
    ∧ ¬ ((fetch_trials srcOnes 2).iters ≤ (2 + 99) / 100) := by decide

/-- C3 as amended: every request has size min(100, max_results minus the
accumulated count); the loop always terminates within max_results
iterations; when the source returns at most the requested number of
records per page the result has at most max_results records; when the
source fills every requested page exactly the loop terminates within
ceil(max_results / 100) iterations; and the two-pages-then-empty stub
source is exhausted early, yielding 4 of 500 requested records in 3
iterations. -/
theorem claim3_amended_pagination (α : Type) (src : FetchSource α) (m : Nat) :
    ((fetch_trials src m).accBefore.length = (fetch_trials src m).requests.length
      ∧ ∀ pr ∈ (fetch_trials src m).accBefore.zip (fetch_trials src m).requests,
          pr.2 = min 100 (m - pr.1))
    ∧ (fetch_trials src m).iters ≤ m
    ∧ ((∀ sz tok page, src sz tok = some page → page.studies.length ≤ sz) →
        (fetch_trials src m).result.length ≤ m)
    ∧ ((∀ sz tok page, src sz tok = some page → page.studies.length = sz) →
        (fetch_trials src m).iters ≤ (m + 99) / 100)
    ∧ ((fetch_trials srcTwoPages 500).result = [10, 11, 12, 13]
      ∧ (fetch_trials srcTwoPages 500).iters = 3) := by
  refine ⟨fetch_go_requests src m m [] none, fetch_go_iters_le_fuel src m m [] none,
    ?_, ?_, by decide⟩
  · intro hsrc
    exact fetch_go_length_le hsrc m [] none (by simp)
  · intro hfull
    simpa using fetch_go_iters_ceil hfull m [] none (by simp)

/-- C3 witness: the amended pagination theorem applied to a concrete
source that fills every page. -/
theorem claim3_witness :
    (fetch_trials srcFull 250).result.length ≤ 250
    ∧ (fetch_trials srcFull 250).iters ≤ (250 + 99) / 100 := by
  have hsrc : ∀ sz tok page, srcFull sz tok = some page → page.studies.length ≤ sz := by
    intro sz tok page h
    simp only [srcFull] at h
    cases h
    simp
  have hfull : ∀ sz tok page, srcFull sz tok = some page → page.studies.length = sz := by
    intro sz tok page h
    simp only [srcFull] at h
    cases h
    simp
  exact ⟨(claim3_amended_pagination Nat srcFull 250).2.2.1 hsrc,
         (claim3_amended_pagination Nat srcFull 250).2.2.2.1 hfull⟩

theorem zip_self_map {α β : Type} (l : List α) (g : α → β) :
    l.zip (l.map g) = l.map (fun x => (x, g x)) := by
  induction l with
  | nil => rfl
  | cons x xs ih => simp [ih]

theorem rlookup_graph (g : String → JValue) (l : List String) (k : String) :
    rlookup (l.map (fun f => (f, g f))) k = if k ∈ l then some (g k) else none := by
  induction l with
  | nil => simp [rlookup]
  | cons f fs ih =>
    by_cases hf : f = k
    · subst hf
      simp [rlookup, List.find?, List.mem_cons]
    · simp only [rlookup, List.map_cons] at ih ⊢
      rw [List.find?_cons_of_neg _ (by simp [hf])]
      rw [ih]
      simp [List.mem_cons, Ne.symm hf]

theorem mem_csv_fieldnames (records : List Record) (k : String) :
    k ∈ csv_fieldnames records ↔ k ∈ sorted_keys records := by
  rw [csv_fieldnames, foldl_pull_front_eq priority_fields (by decide) _
    (sorted_keys_nodup records)]
  simp only [List.mem_append, List.mem_filter, decide_eq_true_eq]
  constructor
  · rintro (⟨_, hS⟩ | ⟨hS, _⟩) <;> exact hS
  · intro hS
    by_cases hp : k ∈ priority_fields
    · exact Or.inl ⟨hp, hS⟩
    · exact Or.inr ⟨hS, hp⟩

theorem rlookup_isSome_iff (r : Record) (k : String) :
    (rlookup r k).isSome = true ↔ k ∈ recordKeys r := by
  have hmap : (rlookup r k).isSome = (List.find? (fun kv => kv.1 == k) r).isSome := by
    rw [rlookup]
    cases List.find? (fun kv => kv.1 == k) r <;> rfl
  rw [hmap, List.find?_isSome]
  constructor
  · rintro ⟨kv, hkv, hbeq⟩
    rw [recordKeys, List.mem_map]
    exact ⟨kv, hkv, by simpa using hbeq⟩
  · intro hk
    rw [recordKeys, List.mem_map] at hk
    obtain ⟨kv, hkv, rfl⟩ := hk
    exact ⟨kv, hkv, by simp⟩

/-- C7 counterexample: two string-valued records with different key sets
do not survive the export and re-parse round trip: the re-parsed records
carry the union key set, with the empty string for the keys a record
lacked, so the first record comes back with an extra key b. -/
theorem claim7_counterexample :
    ¬ List.Forall₂ (fun r orig => ∀ k, rlookup r k = rlookup orig k)
      (dictreader_rows (export_rows [recA, recB])) [recA, recB] := by
  intro h
  have hEq : dictreader_rows (export_rows [recA, recB]) =
      [[("a", JValue.str "x"), ("b", JValue.str "")],
       [("a", JValue.str ""), ("b", JValue.str "y")]] := rfl
  rw [hEq] at h
  cases h with
  | cons h1 _ =>
    have h2 : (some (JValue.str "") : Option JValue) = none := h1 "b"
    exact Option.noConfusion h2

/-- C7 as amended: for every non-empty list of records with all string
values and one common key set, exporting with export_to_csv and re-parsing
the rows reproduces every record exactly: for every key, the re-parsed
record and the original agree (so key sets and values coincide). -/
theorem claim7_amended_roundtrip (records : List Record)
    (hne : records ≠ [])
    (hsame : ∀ r ∈ records, ∀ rr ∈ records, ∀ k : String,
      (rlookup r k).isSome = (rlookup rr k).isSome)
    (hstr : ∀ r ∈ records, ∀ kv ∈ r, ∃ s, kv.2 = JValue.str s) :
    ∃ rows, export_to_csv records = some rows
      ∧ List.Forall₂ (fun r orig => ∀ k, rlookup r k = rlookup orig k)
          (dictreader_rows rows) records := by
  refine ⟨export_rows records, ?_, ?_⟩
  · simp [export_to_csv, hne]
  · have hshape : dictreader_rows (export_rows records)
        = records.map (fun r =>
            (csv_fieldnames records).map (fun f => (f, JValue.str (cellOf r f)))) := by
      simp only [dictreader_rows, export_rows, List.map_map]
      apply List.map_congr_left
      intro r _
      simp only [Function.comp]
      rw [zip_self_map]
      simp [List.map_map, Function.comp]
    rw [hshape]
    rw [List.forall₂_map_left_iff, List.forall₂_same]
    intro r hr k
    rw [rlookup_graph]
    by_cases hmem : k ∈ csv_fieldnames records
    · rw [if_pos hmem]
      have hk : (rlookup r k).isSome = true := by
        have h1 : k ∈ sorted_keys records := (mem_csv_fieldnames records k).mp hmem
        have h2 := (mem_sorted_keys records k).mp h1
        rw [List.mem_flatten] at h2
        obtain ⟨lks, hlks, hkin⟩ := h2
        rw [List.mem_map] at hlks
        obtain ⟨rr, hrr, rfl⟩ := hlks
        rw [hsame r hr rr hrr k]
        exact (rlookup_isSome_iff rr k).mpr hkin
      obtain ⟨v, hv⟩ := Option.isSome_iff_exists.mp hk
      obtain ⟨s, rfl⟩ : ∃ s, v = JValue.str s := by
        have hkv : ∃ kv ∈ r, kv.2 = v := by
          rw [rlookup] at hv
          obtain ⟨kv, hfind, hsnd⟩ := Option.map_eq_some'.mp hv
          exact ⟨kv, List.mem_of_find?_eq_some hfind, hsnd⟩
        obtain ⟨kv, hkvmem, hkveq⟩ := hkv
        obtain ⟨s, hs⟩ := hstr r hr kv hkvmem
        exact ⟨s, by rw [← hkveq, hs]⟩
      rw [hv]
      simp [cellOf, hv]
    · rw [if_neg hmem]
      cases hlk : rlookup r k with
      | none => rfl
      | some v =>
        exfalso
        apply hmem
        have hkin : k ∈ recordKeys r := (rlookup_isSome_iff r k).mp (by simp [hlk])
        rw [mem_csv_fieldnames, mem_sorted_keys, List.mem_flatten]
        exact ⟨recordKeys r, List.mem_map.mpr ⟨r, hr, rfl⟩, hkin⟩

/-- C7 witness: the amended round-trip theorem applied to two records
with one common key set. -/
theorem claim7_witness :
    ∃ rows, export_to_csv [[("a", JValue.str "x")], [("a", JValue.str "x")]] = some rows
      ∧ List.Forall₂ (fun r orig => ∀ k, rlookup r k = rlookup orig k)
          (dictreader_rows rows) [[("a", JValue.str "x")], [("a", JValue.str "x")]] := by
  apply claim7_amended_roundtrip
  · simp
  · intro r hr rr hrr k
    simp only [List.mem_cons, List.not_mem_nil, or_false] at hr hrr
    rcases hr with rfl | rfl <;> rcases hrr with rfl | rfl <;> rfl
  · intro r hr kv hkv
    simp only [List.mem_cons, List.not_mem_nil, or_false] at hr
    rcases hr with rfl | rfl <;>
      · simp only [List.mem_cons, List.not_mem_nil, or_false] at hkv
        rcases hkv with rfl
        exact ⟨"x", rfl⟩
